import Mathlib

/-!
ParticleRepulsion: the per-frame physics and the menu of `src/main.cpp`.

Scalars (`float`) are embedded as elements of an arbitrary linearly ordered
field `K`, so the theorems below are statements about the arithmetic the
program writes down, without rounding. They can be read over the rationals,
where every definition evaluates, and over the reals, where every distance
has its exact root. Float literals are taken at the value the float has:
`1.2f` is `5033165 / 4194304`; the other literals are exact.

The one operation whose IEEE result leaves the field is a division by zero:
every division whose divisor is computed at run time goes through `fdiv`,
and a function that performs one returns `none` (the C program carries on
with NaN or an infinity in the affected fields, which no later comparison or
assignment of the frame repairs).

`sqrtf` (libm), reached directly in `main` and through `Vector2Length`, is
not part of the repository; every definition that needs it takes it as the
parameter `sqrtf`.
-/

namespace ParticleRepulsion

/-- Two-component vector of raylib (`Vector2`). -/
structure Vector2 (K : Type) where
  x : K
  y : K

/-- Four unsigned 8-bit channels of raylib (`Color`). -/
structure Color where
  r : Nat
  g : Nat
  b : Nat
  a : Nat

/-- The record `struct Particle` of `main.cpp`. -/
structure Particle (K : Type) where
  pos : Vector2 K
  vel : Vector2 K
  radius : K
  color : Color

/-- Checked division: `none` when the divisor is zero. -/
def fdiv {K : Type} [LinearOrderedField K] (x y : K) : Option K :=
  if y = 0 then none else some (x / y)

/-- Componentwise sum (raymath `Vector2Add`). -/
def Vector2Add {K : Type} [LinearOrderedField K] (v1 v2 : Vector2 K) : Vector2 K :=
  ⟨v1.x + v2.x, v1.y + v2.y⟩

/-- Componentwise difference (raymath `Vector2Subtract`). -/
def Vector2Subtract {K : Type} [LinearOrderedField K] (v1 v2 : Vector2 K) : Vector2 K :=
  ⟨v1.x - v2.x, v1.y - v2.y⟩

/-- Scaling by a scalar (raymath `Vector2Scale`). -/
def Vector2Scale {K : Type} [LinearOrderedField K] (v : Vector2 K) (scale : K) : Vector2 K :=
  ⟨v.x * scale, v.y * scale⟩

/-- Dot product (raymath `Vector2DotProduct`). -/
def Vector2DotProduct {K : Type} [LinearOrderedField K] (v1 v2 : Vector2 K) : K :=
  v1.x * v2.x + v1.y * v2.y

/-- Euclidean length (raymath `Vector2Length`), over the supplied `sqrtf`. -/
def Vector2Length {K : Type} [LinearOrderedField K] (sqrtf : K → K) (v : Vector2 K) : K :=
  sqrtf (v.x * v.x + v.y * v.y)

/-- The function `ResolveCollision(Particle &a, Particle &b)`: the pair of
particles after the call, `none` if `1.0f / dist` divides by zero. -/
def ResolveCollision {K : Type} [LinearOrderedField K] (sqrtf : K → K) (a b : Particle K) : Option (Particle K × Particle K) :=
  let diff := Vector2Subtract b.pos a.pos
  let dist := Vector2Length sqrtf diff
  let minDist := a.radius + b.radius
  if dist < minDist ∧ dist > 0 then
    (fdiv 1 dist).bind fun inv =>
      let normal := Vector2Scale diff inv
      let overlap := (1 / 2) * (minDist - dist)
      let a1 : Particle K := { a with pos := Vector2Subtract a.pos (Vector2Scale normal overlap) }
      let b1 : Particle K := { b with pos := Vector2Add b.pos (Vector2Scale normal overlap) }
      let relVel := Vector2Subtract b1.vel a1.vel
      let velAlongNormal := Vector2DotProduct relVel normal
      if velAlongNormal > 0 then some (a1, b1)
      else
        let impulse := Vector2Scale normal velAlongNormal
        some ({ a1 with vel := Vector2Add a1.vel impulse },
              { b1 with vel := Vector2Subtract b1.vel impulse })
  else some (a, b)

/-- The unit normal from `a` to `b` as the code computes it:
`Vector2Scale(diff, 1.0f / dist)`. -/
def collisionNormal {K : Type} [LinearOrderedField K] (sqrtf : K → K) (a b : Particle K) : Vector2 K :=
  Vector2Scale (Vector2Subtract b.pos a.pos)
    (1 / Vector2Length sqrtf (Vector2Subtract b.pos a.pos))

/-- Distance between the centres of `a` and `b` as the code computes it. -/
def centerDist {K : Type} [LinearOrderedField K] (sqrtf : K → K) (a b : Particle K) : K :=
  Vector2Length sqrtf (Vector2Subtract b.pos a.pos)

/-- The supplied `sqrtf` returns the exact root at `s`: a non-negative number
whose square is `s`. -/
def ExactSqrtAt {K : Type} [LinearOrderedField K] (sqrtf : K → K) (s : K) : Prop :=
  0 ≤ sqrtf s ∧ sqrtf s * sqrtf s = s

/-- Squared length of a vector. -/
def lengthSqr {K : Type} [LinearOrderedField K] (v : Vector2 K) : K :=
  v.x * v.x + v.y * v.y

/-! ## The per-particle update of the simulation branch of `main` -/

/-- Window width in pixels. -/
def screenWidth {K : Type} [LinearOrderedField K] : K := 800

/-- Window height in pixels. -/
def screenHeight {K : Type} [LinearOrderedField K] : K := 600

/-- How strongly particles are pushed away from the mouse. -/
def repulsion {K : Type} [LinearOrderedField K] : K := 120

/-- Drag coefficient: the float literal `1.2f`, whose value is
`5033165 / 4194304`, a little above `6 / 5`. -/
def dragStrength {K : Type} [LinearOrderedField K] : K := 5033165 / 4194304

/-- Radius around the mouse inside which particles are pushed. -/
def influenceRad {K : Type} [LinearOrderedField K] : K := 75

/-- Distance from the particle to the mouse as the loop body computes it:
`sqrtf(diff.x*diff.x + diff.y*diff.y)` with `diff = p.pos - mouse`. -/
def mouseDist {K : Type} [LinearOrderedField K] (sqrtf : K → K) (mouse : Vector2 K) (p : Particle K) : K :=
  sqrtf ((p.pos.x - mouse.x) * (p.pos.x - mouse.x) + (p.pos.y - mouse.y) * (p.pos.y - mouse.y))

/-- Mouse repulsion (lines 152-163): inside the influence radius the velocity
is accelerated along `diff / dist`; `none` if `dist` is zero there. -/
def repel {K : Type} [LinearOrderedField K] (sqrtf : K → K) (dt : K) (mouse : Vector2 K) (p : Particle K) : Option (Particle K) :=
  let diff : Vector2 K := ⟨p.pos.x - mouse.x, p.pos.y - mouse.y⟩
  let dist := sqrtf (diff.x * diff.x + diff.y * diff.y)
  if dist < influenceRad then
    (fdiv diff.x dist).bind fun dirx =>
      (fdiv diff.y dist).bind fun diry =>
        let strength := (influenceRad - dist) / influenceRad * repulsion
        some { p with vel := ⟨p.vel.x + dirx * strength * dt, p.vel.y + diry * strength * dt⟩ }
  else some p

/-- Drag (lines 166-167). -/
def drag {K : Type} [LinearOrderedField K] (dt : K) (p : Particle K) : Particle K :=
  { p with vel := ⟨p.vel.x - p.vel.x * dragStrength * dt, p.vel.y - p.vel.y * dragStrength * dt⟩ }

/-- Explicit Euler integration of the position (lines 170-171). -/
def integrate {K : Type} [LinearOrderedField K] (dt : K) (p : Particle K) : Particle K :=
  { p with pos := ⟨p.pos.x + p.vel.x * dt, p.pos.y + p.vel.y * dt⟩ }

/-- Left wall (lines 174-176). -/
def bounceLeft {K : Type} [LinearOrderedField K] (p : Particle K) : Particle K :=
  if p.pos.x < p.radius then
    { p with pos := ⟨p.radius, p.pos.y⟩, vel := ⟨p.vel.x * (-1), p.vel.y⟩ }
  else p

/-- Right wall (lines 177-179). -/
def bounceRight {K : Type} [LinearOrderedField K] (p : Particle K) : Particle K :=
  if p.pos.x > screenWidth - p.radius then
    { p with pos := ⟨screenWidth - p.radius, p.pos.y⟩, vel := ⟨p.vel.x * (-1), p.vel.y⟩ }
  else p

/-- Top wall (lines 180-182). -/
def bounceTop {K : Type} [LinearOrderedField K] (p : Particle K) : Particle K :=
  if p.pos.y < p.radius then
    { p with pos := ⟨p.pos.x, p.radius⟩, vel := ⟨p.vel.x, p.vel.y * (-1)⟩ }
  else p

/-- Bottom wall (lines 183-185). -/
def bounceBottom {K : Type} [LinearOrderedField K] (p : Particle K) : Particle K :=
  if p.pos.y > screenHeight - p.radius then
    { p with pos := ⟨p.pos.x, screenHeight - p.radius⟩, vel := ⟨p.vel.x, p.vel.y * (-1)⟩ }
  else p

/-- The four wall tests in program order (lines 174-185). -/
def bounce {K : Type} [LinearOrderedField K] (p : Particle K) : Particle K :=
  bounceBottom (bounceTop (bounceRight (bounceLeft p)))

/-- One iteration of `for (auto &p : particles)` (lines 150-186). -/
def updateParticle {K : Type} [LinearOrderedField K] (sqrtf : K → K) (dt : K) (mouse : Vector2 K) (p : Particle K) : Option (Particle K) :=
  (repel sqrtf dt mouse p).map fun q => bounce (integrate dt (drag dt q))

/-- The whole loop `for (auto &p : particles)`: every particle is updated in
turn; `none` as soon as one update divides by zero. -/
def updateAll {K : Type} [LinearOrderedField K] (sqrtf : K → K) (dt : K) (mouse : Vector2 K) : List (Particle K) → Option (List (Particle K))
  | [] => some []
  | p :: ps =>
    (updateParticle sqrtf dt mouse p).bind fun q =>
      (updateAll sqrtf dt mouse ps).map fun qs => q :: qs

/-! ## The all-pairs collision pass -/

/-- The call `ResolveCollision(particles[i], particles[j])` on the vector:
both elements are read, resolved, and written back in place. `none` if an
index is outside the vector or the resolution divides by zero. -/
def resolveAt {K : Type} [LinearOrderedField K] (sqrtf : K → K) (i j : Nat) (ps : List (Particle K)) : Option (List (Particle K)) :=
  match ps[i]?, ps[j]? with
  | some a, some b =>
    (ResolveCollision sqrtf a b).map fun r => (ps.set i r.1).set j r.2
  | _, _ => none

/-- The inner loop `for (j = ...; j < particles.size(); ++j)` from the current
value of `j`, over a loop body `body i j`. The size of the vector is not
changed by the body, so the bound `particles.size()` is the fixed number `n`. -/
def innerLoop {σ : Type} (body : Nat → Nat → σ → Option σ) (n i j : Nat) (s : σ) : Option σ :=
  if j < n then
    match body i j s with
    | some s1 => innerLoop body n i (j + 1) s1
    | none => none
  else some s
termination_by n - j

/-- The outer loop `for (i = ...; i < particles.size(); ++i)` from the current
value of `i`; its body runs the inner loop from `j = i + 1`. -/
def outerLoop {σ : Type} (body : Nat → Nat → σ → Option σ) (n i : Nat) (s : σ) : Option σ :=
  if i < n then
    match innerLoop body n i (i + 1) s with
    | some s1 => outerLoop body n (i + 1) s1
    | none => none
  else some s
termination_by n - i

/-- The collision pass of one frame (lines 188-192): the two loops around the
call `ResolveCollision(particles[i], particles[j])`. -/
def collisionPass {K : Type} [LinearOrderedField K] (sqrtf : K → K) (ps : List (Particle K)) : Option (List (Particle K)) :=
  outerLoop (resolveAt sqrtf) ps.length 0 ps

/-- The simulation update of one frame: the per-particle loop followed by the
collision pass (lines 150-192). The scaled frame time `dt` (`GetFrameTime() *
slowMo`) and the mouse position are inputs. -/
def simulationStep {K : Type} [LinearOrderedField K] (sqrtf : K → K) (dt : K) (mouse : Vector2 K) (ps : List (Particle K)) :
    Option (List (Particle K)) :=
  (updateAll sqrtf dt mouse ps).bind (collisionPass sqrtf)

/-- Index pairs in the order the spec gives for the collision pass: all
`(i, j)` with `i < j < n`, increasing in `i` and, for equal `i`, in `j`. -/
def pairsInOrder (n : Nat) : List (Nat × Nat) :=
  (List.range n).flatMap fun i => (List.range' (i + 1) (n - (i + 1))).map fun j => (i, j)

/-- A body run on a list of index pairs one after the other, each run on the
state left by the one before. -/
def runPairs {σ : Type} (body : Nat → Nat → σ → Option σ) : List (Nat × Nat) → σ → Option σ
  | [], s => some s
  | (i, j) :: rest, s =>
    match body i j s with
    | some s1 => runPairs body rest s1
    | none => none

/-- A loop body that only records the index pair it is called with. -/
def recordCall (i j : Nat) (log : List (Nat × Nat)) : Option (List (Nat × Nat)) :=
  some (log ++ [(i, j)])

/-! ## The menu branch of `main` -/

/-- The two modes of the application (`enum AppState`). -/
inductive AppState where
  | MENU
  | SIMULATE
deriving DecidableEq

/-- The variables of `main` that the menu branch reads and writes. -/
structure App where
  state : AppState
  particleCount : Int
  particles : List (Particle ℚ)

/-- Keys reported by `IsKeyPressed` during one frame. -/
structure MenuInput where
  up : Bool
  down : Bool
  enter : Bool

/-- Clamping of a float between two bounds (raymath `Clamp`). -/
def Clamp (value min max : ℚ) : ℚ :=
  let result := if value < min then min else value
  if result > max then max else result

/-- Conversion of a float to `int` on assignment: truncation toward zero. -/
def floatToInt (q : ℚ) : Int :=
  if 0 ≤ q then ⌊q⌋ else ⌈q⌉

/-- Conversion of an `int` to `unsigned char`. -/
def toUChar (v : Int) : Nat :=
  (v % 256).toNat

/-- The particle built by iteration `i` of the initialisation loop (lines
113-127). `rnd k lo hi` is the value of the `k`-th call of
`GetRandomValue(lo, hi)` since ENTER was pressed; an iteration makes six. -/
def newParticle (rnd : Nat → Int → Int → Int) (i : Nat) : Particle ℚ :=
  { pos := ⟨(rnd (6 * i) 0 800 : ℚ), (rnd (6 * i + 1) 0 600 : ℚ)⟩
    vel := ⟨0, 0⟩
    radius := (rnd (6 * i + 2) 3 6 : ℚ)
    color := ⟨toUChar (rnd (6 * i + 3) 100 255), toUChar (rnd (6 * i + 4) 100 255),
              toUChar (rnd (6 * i + 5) 100 255), 255⟩ }

/-- The loop `for (int i = ...; i < particleCount; ++i)` of lines 112-129 from
the current value of `i`, pushing one particle per iteration. -/
def initLoop (rnd : Nat → Int → Int → Int) (particleCount : Int) (i : Nat)
    (particles : List (Particle ℚ)) : List (Particle ℚ) :=
  if (i : Int) < particleCount then
    initLoop rnd particleCount (i + 1) (particles ++ [newParticle rnd i])
  else particles
termination_by (particleCount - i).toNat
decreasing_by omega

/-- The menu branch of one frame (lines 102-137): UP and DOWN change the
count, the count is clamped, and ENTER rebuilds the particles and switches
to the simulation. -/
def menuFrame (rnd : Nat → Int → Int → Int) (inp : MenuInput) (app : App) : App :=
  let c1 := if inp.up then app.particleCount + 100 else app.particleCount
  let c2 := if inp.down then c1 - 100 else c1
  let c3 := floatToInt (Clamp (c2 : ℚ) 100 2500)
  if inp.enter then
    { state := AppState.SIMULATE, particleCount := c3, particles := initLoop rnd c3 0 [] }
  else { app with particleCount := c3 }

/-- The state in which `main` enters its loop (lines 58-62). -/
def initialApp : App :=
  { state := AppState.MENU, particleCount := 500, particles := [] }

/-- The frames of the main loop that run the menu branch: one input per
frame for as long as the state is `MENU`. Once the state is `SIMULATE` the
menu branch is not executed again, and the simulation branch assigns neither
`state` nor `particleCount`. -/
def menuRun (rnd : Nat → Int → Int → Int) : List MenuInput → App → App
  | [], app => app
  | inp :: rest, app =>
    if app.state = AppState.MENU then menuRun rnd rest (menuFrame rnd inp app) else app

/-- The state invariant of the menu: the count is within 100..2500, and in
`SIMULATE` the vector holds exactly that many particles. -/
def MenuInv (app : App) : Prop :=
  100 ≤ app.particleCount ∧ app.particleCount ≤ 2500
    ∧ (app.state = AppState.SIMULATE → (app.particles.length : Int) = app.particleCount)

/-! ## Shared lemmas -/

theorem fdiv_of_ne {K : Type} [LinearOrderedField K] (x : K) {y : K} (hy : y ≠ 0) : fdiv x y = some (x / y) := by
  simp [fdiv, hy]

theorem fdiv_zero {K : Type} [LinearOrderedField K] (x : K) : fdiv x 0 = none := by
  simp [fdiv]

/-- The library root `Rat.sqrt`, used as the concrete `sqrtf` of the closed
examples, is exact on squares of non-negative rationals; the examples apply
it to such squares only. -/
theorem ratSqrt_sq (x : ℚ) (hx : 0 ≤ x) : Rat.sqrt (x * x) = x := by
  rw [Rat.sqrt_eq, abs_of_nonneg hx]

/-- Over the reals the square root is exact at every non-negative argument,
so the exactness premises below hold for every pair of particles. -/
theorem exactSqrtAt_realSqrt (s : ℝ) (hs : 0 ≤ s) : ExactSqrtAt Real.sqrt s :=
  ⟨Real.sqrt_nonneg s, Real.mul_self_sqrt hs⟩

theorem lengthSqr_nonneg {K : Type} [LinearOrderedField K] (v : Vector2 K) : 0 ≤ lengthSqr v := by
  unfold lengthSqr
  nlinarith [mul_self_nonneg v.x, mul_self_nonneg v.y]

/-- The value of `ResolveCollision` on an overlapping pair with distinct
centres, written with the normal of `collisionNormal`. -/
theorem ResolveCollision_overlap {K : Type} [LinearOrderedField K] (sqrtf : K → K) (a b : Particle K)
    (h0 : 0 < centerDist sqrtf a b) (hlt : centerDist sqrtf a b < a.radius + b.radius) :
    ResolveCollision sqrtf a b =
      if Vector2DotProduct (Vector2Subtract b.vel a.vel) (collisionNormal sqrtf a b) > 0 then
        some ({ a with pos := Vector2Subtract a.pos (Vector2Scale (collisionNormal sqrtf a b)
                  ((1 / 2) * (a.radius + b.radius - centerDist sqrtf a b))) },
              { b with pos := Vector2Add b.pos (Vector2Scale (collisionNormal sqrtf a b)
                  ((1 / 2) * (a.radius + b.radius - centerDist sqrtf a b))) })
      else
        some ({ a with
                pos := Vector2Subtract a.pos (Vector2Scale (collisionNormal sqrtf a b)
                  ((1 / 2) * (a.radius + b.radius - centerDist sqrtf a b)))
                vel := Vector2Add a.vel (Vector2Scale (collisionNormal sqrtf a b)
                  (Vector2DotProduct (Vector2Subtract b.vel a.vel) (collisionNormal sqrtf a b))) },
              { b with
                pos := Vector2Add b.pos (Vector2Scale (collisionNormal sqrtf a b)
                  ((1 / 2) * (a.radius + b.radius - centerDist sqrtf a b)))
                vel := Vector2Subtract b.vel (Vector2Scale (collisionNormal sqrtf a b)
                  (Vector2DotProduct (Vector2Subtract b.vel a.vel) (collisionNormal sqrtf a b))) }) := by
  unfold centerDist at h0 hlt
  have hne : Vector2Length sqrtf (Vector2Subtract b.pos a.pos) ≠ 0 := ne_of_gt h0
  unfold ResolveCollision
  simp only [centerDist, collisionNormal, hlt, h0, gt_iff_lt, and_self, if_true,
    fdiv_of_ne 1 hne, Option.some_bind]

/-- Outside the guard `dist < minDist && dist > 0` the call changes nothing. -/
theorem ResolveCollision_skip {K : Type} [LinearOrderedField K] (sqrtf : K → K) (a b : Particle K)
    (h : centerDist sqrtf a b = 0 ∨ a.radius + b.radius ≤ centerDist sqrtf a b) :
    ResolveCollision sqrtf a b = some (a, b) := by
  unfold centerDist at h
  have hc : ¬ (Vector2Length sqrtf (Vector2Subtract b.pos a.pos) < a.radius + b.radius
      ∧ Vector2Length sqrtf (Vector2Subtract b.pos a.pos) > 0) := by
    rintro ⟨h1, h2⟩
    rcases h with h | h
    · rw [h] at h2
      exact lt_irrefl 0 h2
    · exact absurd h1 (not_lt.mpr h)
  unfold ResolveCollision
  simp only [hc, if_false]

/-- The call `ResolveCollision` always returns: its only division is guarded
by `dist > 0`. -/
theorem ResolveCollision_isSome {K : Type} [LinearOrderedField K] (sqrtf : K → K) (a b : Particle K) :
    (ResolveCollision sqrtf a b).isSome = true := by
  by_cases h : centerDist sqrtf a b < a.radius + b.radius ∧ centerDist sqrtf a b > 0
  · rw [ResolveCollision_overlap sqrtf a b h.2 h.1]
    split <;> rfl
  · unfold centerDist at h
    unfold ResolveCollision
    simp only [h, if_false, Option.isSome_some]

/-- The unit normal has length one when `sqrtf` is exact at the squared
distance of the centres. -/
theorem collisionNormal_unit {K : Type} [LinearOrderedField K] (sqrtf : K → K) (a b : Particle K)
    (h0 : 0 < centerDist sqrtf a b)
    (hex : ExactSqrtAt sqrtf (lengthSqr (Vector2Subtract b.pos a.pos))) :
    Vector2DotProduct (collisionNormal sqrtf a b) (collisionNormal sqrtf a b) = 1 := by
  have hne : centerDist sqrtf a b ≠ 0 := ne_of_gt h0
  have hsq := hex.2
  unfold lengthSqr at hsq
  unfold centerDist Vector2Length at hne
  unfold collisionNormal Vector2DotProduct Vector2Scale Vector2Length
  simp only
  field_simp
  nlinarith [hsq]

/-- After the position correction the squared distance of the centres is the
square of the sum of the radii. -/
theorem corrected_lengthSqr {K : Type} [LinearOrderedField K] (sqrtf : K → K) (a b : Particle K)
    (h0 : 0 < centerDist sqrtf a b)
    (hex : ExactSqrtAt sqrtf (lengthSqr (Vector2Subtract b.pos a.pos))) :
    lengthSqr (Vector2Subtract
        (Vector2Add b.pos (Vector2Scale (collisionNormal sqrtf a b)
          ((1 / 2) * (a.radius + b.radius - centerDist sqrtf a b))))
        (Vector2Subtract a.pos (Vector2Scale (collisionNormal sqrtf a b)
          ((1 / 2) * (a.radius + b.radius - centerDist sqrtf a b)))))
      = (a.radius + b.radius) * (a.radius + b.radius) := by
  have hsq := hex.2
  unfold lengthSqr Vector2Subtract at hsq
  simp only at hsq
  unfold centerDist Vector2Length Vector2Subtract at h0
  simp only at h0
  unfold lengthSqr collisionNormal centerDist Vector2Length Vector2Subtract Vector2Add Vector2Scale
  simp only
  generalize sqrtf ((b.pos.x - a.pos.x) * (b.pos.x - a.pos.x)
    + (b.pos.y - a.pos.y) * (b.pos.y - a.pos.y)) = d at hsq h0 ⊢
  have hd : d ≠ 0 := ne_of_gt h0
  have hx : b.pos.x + (b.pos.x - a.pos.x) * (1 / d) * (1 / 2 * (a.radius + b.radius - d))
      - (a.pos.x - (b.pos.x - a.pos.x) * (1 / d) * (1 / 2 * (a.radius + b.radius - d)))
      = (b.pos.x - a.pos.x) * ((a.radius + b.radius) / d) := by
    field_simp
    ring
  have hy : b.pos.y + (b.pos.y - a.pos.y) * (1 / d) * (1 / 2 * (a.radius + b.radius - d))
      - (a.pos.y - (b.pos.y - a.pos.y) * (1 / d) * (1 / 2 * (a.radius + b.radius - d)))
      = (b.pos.y - a.pos.y) * ((a.radius + b.radius) / d) := by
    field_simp
    ring
  rw [hx, hy]
  have hfac : (b.pos.x - a.pos.x) * ((a.radius + b.radius) / d)
        * ((b.pos.x - a.pos.x) * ((a.radius + b.radius) / d))
      + (b.pos.y - a.pos.y) * ((a.radius + b.radius) / d)
        * ((b.pos.y - a.pos.y) * ((a.radius + b.radius) / d))
      = ((b.pos.x - a.pos.x) * (b.pos.x - a.pos.x) + (b.pos.y - a.pos.y) * (b.pos.y - a.pos.y))
        * (((a.radius + b.radius) / d) * ((a.radius + b.radius) / d)) := by
    ring
  rw [hfac, ← hsq]
  field_simp

/-- A non-negative root of the square of a positive number is that number. -/
theorem exactSqrt_eq {K : Type} [LinearOrderedField K] (sqrtf : K → K) (r : K) (hr : 0 < r) (hex : ExactSqrtAt sqrtf (r * r)) :
    sqrtf (r * r) = r := by
  obtain ⟨h1, h2⟩ := hex
  have h3 : (sqrtf (r * r) - r) * (sqrtf (r * r) + r) = 0 := by
    have : (sqrtf (r * r) - r) * (sqrtf (r * r) + r) = sqrtf (r * r) * sqrtf (r * r) - r * r := by
      ring
    rw [this, h2]
    ring
  rcases mul_eq_zero.mp h3 with h | h
  · linarith
  · linarith

theorem bounce_fields {K : Type} [LinearOrderedField K] (p : Particle K) :
    (bounce p).radius = p.radius ∧ (bounce p).color = p.color := by
  unfold bounce bounceBottom bounceTop bounceRight bounceLeft
  split_ifs <;> simp

theorem bounce_contained {K : Type} [LinearOrderedField K] (p : Particle K) (hr : 2 * p.radius ≤ 600) :
    p.radius ≤ (bounce p).pos.x ∧ (bounce p).pos.x ≤ 800 - p.radius
      ∧ p.radius ≤ (bounce p).pos.y ∧ (bounce p).pos.y ≤ 600 - p.radius := by
  unfold bounce bounceBottom bounceTop bounceRight bounceLeft screenWidth screenHeight
  split_ifs <;> (try dsimp only at *) <;> (refine ⟨?_, ?_, ?_, ?_⟩ <;> linarith)

theorem repel_far {K : Type} [LinearOrderedField K] (sqrtf : K → K) (dt : K) (mouse : Vector2 K) (p : Particle K)
    (h : influenceRad ≤ mouseDist sqrtf mouse p) : repel sqrtf dt mouse p = some p := by
  unfold mouseDist at h
  unfold repel
  simp only [not_lt.mpr h, if_false]

theorem repel_zero {K : Type} [LinearOrderedField K] (sqrtf : K → K) (dt : K) (mouse : Vector2 K) (p : Particle K)
    (h : mouseDist sqrtf mouse p = 0) : repel sqrtf dt mouse p = none := by
  unfold mouseDist at h
  unfold repel
  simp only [h, fdiv_zero, Option.none_bind]
  norm_num [influenceRad]

theorem repel_of_ne {K : Type} [LinearOrderedField K] (sqrtf : K → K) (dt : K) (mouse : Vector2 K) (p : Particle K)
    (h : mouseDist sqrtf mouse p ≠ 0) :
    ∃ q, repel sqrtf dt mouse p = some q ∧ q.pos = p.pos ∧ q.radius = p.radius
      ∧ q.color = p.color := by
  unfold mouseDist at h
  unfold repel
  simp only [fdiv_of_ne _ h, Option.some_bind]
  split_ifs
  · exact ⟨_, rfl, rfl, rfl, rfl⟩
  · exact ⟨_, rfl, rfl, rfl, rfl⟩

/-- With the mouse off the particle centre the update returns a particle
inside the walls, of the same radius and colour. -/
theorem updateParticle_contained {K : Type} [LinearOrderedField K] (sqrtf : K → K) (dt : K) (mouse : Vector2 K) (p : Particle K)
    (hr : 2 * p.radius ≤ 600) (hm : mouseDist sqrtf mouse p ≠ 0) :
    ∃ q, updateParticle sqrtf dt mouse p = some q
      ∧ q.radius = p.radius ∧ q.color = p.color
      ∧ p.radius ≤ q.pos.x ∧ q.pos.x ≤ 800 - p.radius
      ∧ p.radius ≤ q.pos.y ∧ q.pos.y ≤ 600 - p.radius := by
  obtain ⟨q, hq, -, hrad, hcol⟩ := repel_of_ne sqrtf dt mouse p hm
  have hrad2 : (integrate dt (drag dt q)).radius = p.radius := by
    rw [← hrad]
    rfl
  have hcol2 : (integrate dt (drag dt q)).color = p.color := by
    rw [← hcol]
    rfl
  have hf := bounce_fields (integrate dt (drag dt q))
  have hc := bounce_contained (integrate dt (drag dt q)) (by rw [hrad2]; exact hr)
  rw [hrad2] at hc
  refine ⟨bounce (integrate dt (drag dt q)), ?_, ?_, ?_, hc⟩
  · simp only [updateParticle, hq, Option.map_some']
  · rw [hf.1, hrad2]
  · rw [hf.2, hcol2]

/-- With the mouse on the particle centre the update divides by zero. -/
theorem updateParticle_zero {K : Type} [LinearOrderedField K] (sqrtf : K → K) (dt : K) (mouse : Vector2 K) (p : Particle K)
    (hm : mouseDist sqrtf mouse p = 0) : updateParticle sqrtf dt mouse p = none := by
  simp only [updateParticle, repel_zero sqrtf dt mouse p hm, Option.map_none']

/-! ### The collision loops -/

/-- An in-range call on the vector returns a vector of the same length. -/
theorem resolveAt_some {K : Type} [LinearOrderedField K] (sqrtf : K → K) (i j : Nat) (ps : List (Particle K))
    (hi : i < ps.length) (hj : j < ps.length) :
    ∃ ps1, resolveAt sqrtf i j ps = some ps1 ∧ ps1.length = ps.length := by
  have hsome := ResolveCollision_isSome sqrtf (ps.get ⟨i, hi⟩) (ps.get ⟨j, hj⟩)
  obtain ⟨r, hr⟩ := Option.isSome_iff_exists.mp hsome
  refine ⟨(ps.set i r.1).set j r.2, ?_, ?_⟩
  · unfold resolveAt
    simp only [List.getElem?_eq_getElem hi, List.getElem?_eq_getElem hj]
    simp only [List.get_eq_getElem] at hr
    simp only [hr, Option.map_some']
  · simp only [List.length_set]

theorem runPairs_append {σ : Type} (body : Nat → Nat → σ → Option σ)
    (l1 l2 : List (Nat × Nat)) (s : σ) :
    runPairs body (l1 ++ l2) s = (runPairs body l1 s).bind (runPairs body l2) := by
  induction l1 generalizing s with
  | nil => simp only [List.nil_append, runPairs, Option.some_bind]
  | cons p rest ih =>
    obtain ⟨i, j⟩ := p
    simp only [List.cons_append, runPairs]
    cases body i j s with
    | none => simp only [Option.none_bind]
    | some s1 => exact ih s1

/-- The inner loop from `j` runs the body on the pairs `(i, j)`, `(i, j + 1)`,
..., `(i, n - 1)` in this order. -/
theorem innerLoop_eq {σ : Type} (body : Nat → Nat → σ → Option σ) (n i : Nat) :
    ∀ (k j : Nat) (s : σ), n - j = k →
      innerLoop body n i j s = runPairs body ((List.range' j k).map fun j => (i, j)) s := by
  intro k
  induction k with
  | zero =>
    intro j s h
    have hj : ¬ j < n := by omega
    rw [innerLoop]
    simp only [hj, if_false, List.range'_zero, List.map_nil, runPairs]
  | succ k ih =>
    intro j s h
    have hj : j < n := by omega
    rw [innerLoop]
    simp only [hj, if_true, List.range'_succ, List.map_cons, runPairs]
    cases body i j s with
    | none => rfl
    | some s1 => exact ih (j + 1) s1 (by omega)

/-- The outer loop from `i` runs the body on the rows `i`, `i + 1`, ...,
`n - 1` of the pair table, each row in increasing `j`. -/
theorem outerLoop_eq {σ : Type} (body : Nat → Nat → σ → Option σ) (n : Nat) :
    ∀ (k i : Nat) (s : σ), n - i = k →
      outerLoop body n i s
        = runPairs body ((List.range' i k).flatMap fun i =>
            (List.range' (i + 1) (n - (i + 1))).map fun j => (i, j)) s := by
  intro k
  induction k with
  | zero =>
    intro i s h
    have hi : ¬ i < n := by omega
    rw [outerLoop]
    simp only [hi, if_false, List.range'_zero, List.flatMap_nil, runPairs]
  | succ k ih =>
    intro i s h
    have hi : i < n := by omega
    rw [outerLoop]
    simp only [hi, if_true, List.range'_succ, List.flatMap_cons, runPairs_append]
    rw [innerLoop_eq body n i (n - (i + 1)) (i + 1) s rfl]
    cases runPairs body ((List.range' (i + 1) (n - (i + 1))).map fun j => (i, j)) s with
    | none => rfl
    | some s1 => exact ih (i + 1) s1 (by omega)

theorem outerLoop_eq_runPairs {σ : Type} (body : Nat → Nat → σ → Option σ) (n : Nat) (s : σ) :
    outerLoop body n 0 s = runPairs body (pairsInOrder n) s := by
  unfold pairsInOrder
  rw [outerLoop_eq body n n 0 s rfl, List.range_eq_range']

theorem runPairs_recordCall (l log : List (Nat × Nat)) :
    runPairs recordCall l log = some (log ++ l) := by
  induction l generalizing log with
  | nil => simp only [runPairs, List.append_nil]
  | cons p rest ih =>
    obtain ⟨i, j⟩ := p
    simp only [runPairs, recordCall]
    rw [ih]
    simp only [List.append_assoc, List.singleton_append]

/-- Resolution of in-range pairs always returns, with the length kept. -/
theorem resolvePairs_some {K : Type} [LinearOrderedField K] (sqrtf : K → K) (l : List (Nat × Nat)) :
    ∀ ps : List (Particle K), (∀ p ∈ l, p.1 < ps.length ∧ p.2 < ps.length) →
      ∃ ps1, runPairs (resolveAt sqrtf) l ps = some ps1 ∧ ps1.length = ps.length := by
  induction l with
  | nil =>
    intro ps _
    exact ⟨ps, rfl, rfl⟩
  | cons p rest ih =>
    intro ps h
    obtain ⟨i, j⟩ := p
    have hij := h (i, j) (List.mem_cons_self _ _)
    obtain ⟨ps1, h1, hl1⟩ := resolveAt_some sqrtf i j ps hij.1 hij.2
    obtain ⟨ps2, h2, hl2⟩ := ih ps1 (by
      intro q hq
      rw [hl1]
      exact h q (List.mem_cons_of_mem _ hq))
    refine ⟨ps2, ?_, by rw [hl2, hl1]⟩
    simp only [runPairs, h1]
    exact h2

theorem mem_pairsInOrder (n i j : Nat) : (i, j) ∈ pairsInOrder n ↔ i < j ∧ j < n := by
  unfold pairsInOrder
  simp only [List.mem_flatMap, List.mem_range, List.mem_map, List.mem_range'_1, Prod.mk.injEq]
  constructor
  · rintro ⟨a, ha, b, ⟨hb1, hb2⟩, rfl, rfl⟩
    omega
  · rintro ⟨h1, h2⟩
    exact ⟨i, by omega, j, ⟨by omega, by omega⟩, rfl, rfl⟩

theorem collisionPass_eq {K : Type} [LinearOrderedField K] (sqrtf : K → K) (ps : List (Particle K)) :
    collisionPass sqrtf ps = runPairs (resolveAt sqrtf) (pairsInOrder ps.length) ps :=
  outerLoop_eq_runPairs (resolveAt sqrtf) ps.length ps

/-- The collision pass always returns, with the number of particles kept. -/
theorem collisionPass_some {K : Type} [LinearOrderedField K] (sqrtf : K → K) (ps : List (Particle K)) :
    ∃ ps1, collisionPass sqrtf ps = some ps1 ∧ ps1.length = ps.length := by
  rw [collisionPass_eq]
  apply resolvePairs_some
  rintro ⟨i, j⟩ h
  have := (mem_pairsInOrder ps.length i j).mp h
  constructor
  · show i < ps.length
    omega
  · exact this.2

/-- The pair table is strictly increasing in the lexicographic order. -/
theorem pairsInOrder_sorted (n : Nat) :
    (pairsInOrder n).Pairwise fun p q => p.1 < q.1 ∨ (p.1 = q.1 ∧ p.2 < q.2) := by
  unfold pairsInOrder
  rw [List.pairwise_flatMap]
  constructor
  · intro i _
    rw [List.pairwise_map]
    exact (List.pairwise_lt_range' (i + 1) (n - (i + 1))).imp fun h => Or.inr ⟨rfl, h⟩
  · rw [List.range_eq_range']
    refine (List.pairwise_lt_range' 0 n).imp ?_
    intro i1 i2 h x hx y hy
    simp only [List.mem_map] at hx hy
    obtain ⟨_, _, rfl⟩ := hx
    obtain ⟨_, _, rfl⟩ := hy
    exact Or.inl h

theorem pairsInOrder_nodup (n : Nat) : (pairsInOrder n).Nodup := by
  refine (pairsInOrder_sorted n).imp ?_
  rintro ⟨i1, j1⟩ ⟨i2, j2⟩ h heq
  simp only [Prod.mk.injEq] at heq
  obtain ⟨rfl, rfl⟩ := heq
  rcases h with h | ⟨_, h⟩
  · exact lt_irrefl _ h
  · exact lt_irrefl _ h

theorem rows_length (n : Nat) :
    ∀ (k i : Nat), n - i = k →
      ((List.range' i k).flatMap fun i =>
        (List.range' (i + 1) (n - (i + 1))).map fun j => (i, j)).length * 2 = k * (k - 1) := by
  intro k
  induction k with
  | zero =>
    intro i _
    simp only [List.range'_zero, List.flatMap_nil, List.length_nil, Nat.zero_mul]
  | succ k ih =>
    intro i h
    have h1 : n - (i + 1) = k := by omega
    simp only [List.range'_succ, List.flatMap_cons, List.length_append, List.length_map,
      List.length_range', Nat.add_mul, ih (i + 1) h1, h1, Nat.add_sub_cancel]
    cases k with
    | zero => rfl
    | succ m =>
      simp only [Nat.add_sub_cancel]
      ring

theorem pairsInOrder_length (n : Nat) : (pairsInOrder n).length = n * (n - 1) / 2 := by
  have h := rows_length n n 0 rfl
  unfold pairsInOrder
  rw [List.range_eq_range']
  omega

/-! ### The menu -/

/-- On an integer count the float clamp followed by the conversion back to
`int` is the integer clamp to 100..2500. -/
theorem clamp_count (c : Int) :
    floatToInt (Clamp (c : ℚ) 100 2500) = max 100 (min c 2500) := by
  unfold Clamp
  by_cases h1 : c < 100
  · have h1q : (c : ℚ) < 100 := by exact_mod_cast h1
    simp only [h1q, if_true]
    norm_num [floatToInt]
    omega
  · have h1q : ¬ (c : ℚ) < 100 := by
      intro h
      exact h1 (by exact_mod_cast h)
    simp only [h1q, if_false]
    by_cases h2 : c > 2500
    · have h2q : (c : ℚ) > 2500 := by exact_mod_cast h2
      simp only [h2q, if_true]
      norm_num [floatToInt]
      omega
    · have h2q : ¬ (c : ℚ) > 2500 := by
        intro h
        exact h2 (by exact_mod_cast h)
      have h0 : (0 : ℚ) ≤ (c : ℚ) := by
        have : (0 : Int) ≤ c := by omega
        exact_mod_cast this
      simp only [h2q, if_false, floatToInt, h0, if_true, Int.floor_intCast]
      omega

/-- The initialisation loop pushes one particle for every remaining index. -/
theorem initLoop_length (rnd : Nat → Int → Int → Int) (c : Int) :
    ∀ (k i : Nat) (ps : List (Particle ℚ)), (c - i).toNat = k →
      (initLoop rnd c i ps).length = ps.length + k := by
  intro k
  induction k with
  | zero =>
    intro i ps h
    have hi : ¬ (i : Int) < c := by omega
    rw [initLoop]
    simp only [hi, if_false, Nat.add_zero]
  | succ k ih =>
    intro i ps h
    have hi : (i : Int) < c := by omega
    rw [initLoop]
    simp only [hi, if_true]
    rw [ih (i + 1) _ (by push_cast; omega)]
    simp only [List.length_append, List.length_singleton]
    omega

/-- The count written by a menu frame. -/
theorem menuFrame_count (rnd : Nat → Int → Int → Int) (inp : MenuInput) (app : App) :
    (menuFrame rnd inp app).particleCount
      = max 100 (min ((if inp.down then
            (if inp.up then app.particleCount + 100 else app.particleCount) - 100
          else (if inp.up then app.particleCount + 100 else app.particleCount))) 2500) := by
  unfold menuFrame
  split_ifs <;> exact clamp_count _

theorem menuFrame_inv (rnd : Nat → Int → Int → Int) (inp : MenuInput) (app : App)
    (hs : app.state = AppState.MENU) : MenuInv (menuFrame rnd inp app) := by
  have hc := menuFrame_count rnd inp app
  refine ⟨by rw [hc]; omega, by rw [hc]; omega, ?_⟩
  intro hsim
  have hlo : 100 ≤ (menuFrame rnd inp app).particleCount := by rw [hc]; omega
  unfold menuFrame at hsim hlo ⊢
  by_cases he : inp.enter = true
  · simp only [he, if_true] at hlo ⊢
    rw [initLoop_length rnd _ _ 0 [] rfl]
    simp only [List.length_nil, Nat.zero_add, Nat.cast_zero, sub_zero]
    omega
  · simp only [he] at hsim
    simp only [Bool.false_eq_true, if_false] at hsim
    rw [hs] at hsim
    exact absurd hsim (by decide)

theorem menuRun_inv (rnd : Nat → Int → Int → Int) (inputs : List MenuInput) :
    ∀ app : App, MenuInv app → MenuInv (menuRun rnd inputs app) := by
  induction inputs with
  | nil =>
    intro app h
    exact h
  | cons inp rest ih =>
    intro app h
    unfold menuRun
    by_cases hs : app.state = AppState.MENU
    · simp only [hs, if_true]
      exact ih _ (menuFrame_inv rnd inp app hs)
    · simp only [hs, if_false]
      exact h

/-! ### The whole update step -/

/-- With the mouse off every centre the per-particle loop returns a particle
for each input particle, each inside the walls. -/
theorem updateAll_contained {K : Type} [LinearOrderedField K] (sqrtf : K → K) (dt : K) (mouse : Vector2 K) :
    ∀ ps : List (Particle K),
      (∀ p ∈ ps, 3 ≤ p.radius ∧ p.radius ≤ 6) →
      (∀ p ∈ ps, mouseDist sqrtf mouse p ≠ 0) →
      ∃ qs, updateAll sqrtf dt mouse ps = some qs ∧ qs.length = ps.length
        ∧ ∀ q ∈ qs, 3 ≤ q.radius ∧ q.radius ≤ 6
            ∧ q.radius ≤ q.pos.x ∧ q.pos.x ≤ 800 - q.radius
            ∧ q.radius ≤ q.pos.y ∧ q.pos.y ≤ 600 - q.radius := by
  intro ps
  induction ps with
  | nil =>
    intro _ _
    exact ⟨[], rfl, rfl, fun q hq => absurd hq (List.not_mem_nil q)⟩
  | cons p rest ih =>
    intro hrad hm
    have hp := hrad p (List.mem_cons_self _ _)
    obtain ⟨q, hq, hqr, -, hx1, hx2, hy1, hy2⟩ :=
      updateParticle_contained sqrtf dt mouse p (by linarith [hp.2])
        (hm p (List.mem_cons_self _ _))
    obtain ⟨qs, hqs, hlen, hall⟩ :=
      ih (fun x hx => hrad x (List.mem_cons_of_mem _ hx))
        (fun x hx => hm x (List.mem_cons_of_mem _ hx))
    refine ⟨q :: qs, ?_, ?_, ?_⟩
    · simp only [updateAll, hq, hqs, Option.some_bind, Option.map_some']
    · simp only [List.length_cons, hlen]
    · intro x hx
      rcases List.mem_cons.mp hx with rfl | hx
      · rw [hqr]
        exact ⟨hp.1, hp.2, hx1, hx2, hy1, hy2⟩
      · exact hall x hx

/-- A call on two particles that do not overlap, or whose centres coincide,
leaves the vector as it is. -/
theorem resolveAt_unchanged {K : Type} [LinearOrderedField K] (sqrtf : K → K) (i j : Nat) (ps : List (Particle K)) (a b : Particle K)
    (ha : ps[i]? = some a) (hb : ps[j]? = some b)
    (h : centerDist sqrtf a b = 0 ∨ a.radius + b.radius ≤ centerDist sqrtf a b) :
    resolveAt sqrtf i j ps = some ps := by
  have hrc : ResolveCollision sqrtf a b = some (a, b) := ResolveCollision_skip sqrtf a b h
  unfold resolveAt
  simp only [ha, hb, hrc, Option.map_some']
  have h1 : ps.set i a = ps := by
    apply List.ext_getElem?
    intro k
    by_cases hk : i = k
    · subst hk
      rw [List.getElem?_set_self', ha]
      rfl
    · rw [List.getElem?_set_ne hk]
  have h2 : ps.set j b = ps := by
    apply List.ext_getElem?
    intro k
    by_cases hk : j = k
    · subst hk
      rw [List.getElem?_set_self', hb]
      rfl
    · rw [List.getElem?_set_ne hk]
  rw [h1, h2]

theorem runPairs_unchanged {K : Type} [LinearOrderedField K] (sqrtf : K → K) (ps : List (Particle K)) (l : List (Nat × Nat))
    (hl : ∀ p ∈ l, p.1 < p.2 ∧ p.2 < ps.length)
    (h : ∀ (i j : Nat) (a b : Particle K), i < j → ps[i]? = some a → ps[j]? = some b →
      centerDist sqrtf a b = 0 ∨ a.radius + b.radius ≤ centerDist sqrtf a b) :
    runPairs (resolveAt sqrtf) l ps = some ps := by
  induction l with
  | nil => rfl
  | cons p rest ih =>
    obtain ⟨i, j⟩ := p
    have hij := hl (i, j) (List.mem_cons_self _ _)
    have hi : i < ps.length := lt_trans hij.1 hij.2
    have h1 := resolveAt_unchanged sqrtf i j ps (ps.get ⟨i, hi⟩) (ps.get ⟨j, hij.2⟩)
      (by simp only [List.get_eq_getElem, List.getElem?_eq_getElem hi])
      (by simp only [List.get_eq_getElem, List.getElem?_eq_getElem hij.2])
      (h i j _ _ hij.1
        (by simp only [List.get_eq_getElem, List.getElem?_eq_getElem hi])
        (by simp only [List.get_eq_getElem, List.getElem?_eq_getElem hij.2]))
    simp only [runPairs, h1]
    exact ih fun q hq => hl q (List.mem_cons_of_mem _ hq)

/-- The collision pass leaves a vector without overlapping pairs as it is. -/
theorem collisionPass_unchanged {K : Type} [LinearOrderedField K] (sqrtf : K → K) (ps : List (Particle K))
    (h : ∀ (i j : Nat) (a b : Particle K), i < j → ps[i]? = some a → ps[j]? = some b →
      centerDist sqrtf a b = 0 ∨ a.radius + b.radius ≤ centerDist sqrtf a b) :
    collisionPass sqrtf ps = some ps := by
  rw [collisionPass_eq]
  apply runPairs_unchanged sqrtf ps _ _ h
  rintro ⟨i, j⟩ hp
  exact (mem_pairsInOrder ps.length i j).mp hp

/-! ### Exact roots -/

/-- The position correction over any ordered field, for a `sqrtf` that returns
the exact root at the two arguments it is applied to: the centres move by half
the overlap each along the unit normal and end `a.radius + b.radius` apart. -/
theorem removes_overlap_of_exact {K : Type} [LinearOrderedField K] (sqrtf : K → K) (a b : Particle K)
    (h0 : 0 < centerDist sqrtf a b) (hlt : centerDist sqrtf a b < a.radius + b.radius)
    (hex : ExactSqrtAt sqrtf (lengthSqr (Vector2Subtract b.pos a.pos)))
    (hex2 : ExactSqrtAt sqrtf ((a.radius + b.radius) * (a.radius + b.radius))) :
    ∃ a1 b1 : Particle K, ResolveCollision sqrtf a b = some (a1, b1)
      ∧ Vector2DotProduct (collisionNormal sqrtf a b) (collisionNormal sqrtf a b) = 1
      ∧ a1.pos = Vector2Subtract a.pos (Vector2Scale (collisionNormal sqrtf a b)
          ((a.radius + b.radius - centerDist sqrtf a b) / 2))
      ∧ b1.pos = Vector2Add b.pos (Vector2Scale (collisionNormal sqrtf a b)
          ((a.radius + b.radius - centerDist sqrtf a b) / 2))
      ∧ lengthSqr (Vector2Subtract b1.pos a1.pos)
          = (a.radius + b.radius) * (a.radius + b.radius)
      ∧ centerDist sqrtf a1 b1 = a.radius + b.radius
      ∧ ∀ ε : K, 0 ≤ ε → a.radius + b.radius - ε ≤ centerDist sqrtf a1 b1 := by
  have hR : 0 < a.radius + b.radius := lt_trans h0 hlt
  have hov : (1 / 2 : K) * (a.radius + b.radius - centerDist sqrtf a b)
      = (a.radius + b.radius - centerDist sqrtf a b) / 2 := by ring
  have hsq := corrected_lengthSqr sqrtf a b h0 hex
  have hroot := exactSqrt_eq sqrtf (a.radius + b.radius) hR hex2
  rw [hov] at hsq
  have hdist : ∀ a1 b1 : Particle K,
      a1.pos = Vector2Subtract a.pos (Vector2Scale (collisionNormal sqrtf a b)
          ((a.radius + b.radius - centerDist sqrtf a b) / 2)) →
      b1.pos = Vector2Add b.pos (Vector2Scale (collisionNormal sqrtf a b)
          ((a.radius + b.radius - centerDist sqrtf a b) / 2)) →
      centerDist sqrtf a1 b1 = a.radius + b.radius := by
    intro a1 b1 ha hb
    have h1 : centerDist sqrtf a1 b1 = sqrtf (lengthSqr (Vector2Subtract b1.pos a1.pos)) := rfl
    rw [h1, ha, hb, hsq, hroot]
  rw [ResolveCollision_overlap sqrtf a b h0 hlt, hov]
  split
  · refine ⟨_, _, rfl, collisionNormal_unit sqrtf a b h0 hex, rfl, rfl, hsq, ?_, ?_⟩
    · exact hdist _ _ rfl rfl
    · intro ε hε
      rw [hdist _ _ rfl rfl]
      linarith
  · refine ⟨_, _, rfl, collisionNormal_unit sqrtf a b h0 hex, rfl, rfl, hsq, ?_, ?_⟩
    · exact hdist _ _ rfl rfl
    · intro ε hε
      rw [hdist _ _ rfl rfl]
      linarith

/-- The impulse over any ordered field, for a `sqrtf` that returns the exact
root at the squared centre distance: an equal-mass elastic exchange of the
velocity components along the normal. -/
theorem elastic_of_exact {K : Type} [LinearOrderedField K] (sqrtf : K → K) (a b : Particle K)
    (h0 : 0 < centerDist sqrtf a b) (hlt : centerDist sqrtf a b < a.radius + b.radius)
    (hex : ExactSqrtAt sqrtf (lengthSqr (Vector2Subtract b.pos a.pos)))
    (hns : Vector2DotProduct (Vector2Subtract b.vel a.vel) (collisionNormal sqrtf a b) ≤ 0) :
    ∃ a1 b1 : Particle K, ResolveCollision sqrtf a b = some (a1, b1)
      ∧ Vector2Add a1.vel b1.vel = Vector2Add a.vel b.vel
      ∧ lengthSqr a1.vel + lengthSqr b1.vel = lengthSqr a.vel + lengthSqr b.vel
      ∧ Vector2DotProduct (Vector2Subtract b1.vel a1.vel) (collisionNormal sqrtf a b)
          = - Vector2DotProduct (Vector2Subtract b.vel a.vel) (collisionNormal sqrtf a b)
      ∧ Vector2DotProduct a1.vel (collisionNormal sqrtf a b)
          = Vector2DotProduct b.vel (collisionNormal sqrtf a b)
      ∧ Vector2DotProduct b1.vel (collisionNormal sqrtf a b)
          = Vector2DotProduct a.vel (collisionNormal sqrtf a b)
      ∧ Vector2Subtract a1.vel (Vector2Scale (collisionNormal sqrtf a b)
            (Vector2DotProduct a1.vel (collisionNormal sqrtf a b)))
          = Vector2Subtract a.vel (Vector2Scale (collisionNormal sqrtf a b)
            (Vector2DotProduct a.vel (collisionNormal sqrtf a b)))
      ∧ Vector2Subtract b1.vel (Vector2Scale (collisionNormal sqrtf a b)
            (Vector2DotProduct b1.vel (collisionNormal sqrtf a b)))
          = Vector2Subtract b.vel (Vector2Scale (collisionNormal sqrtf a b)
            (Vector2DotProduct b.vel (collisionNormal sqrtf a b))) := by
  have hn := collisionNormal_unit sqrtf a b h0 hex
  rw [ResolveCollision_overlap sqrtf a b h0 hlt, if_neg (not_lt.mpr hns)]
  generalize collisionNormal sqrtf a b = n at hn
  obtain ⟨nx, ny⟩ := n
  simp only [Vector2DotProduct] at hn
  refine ⟨_, _, rfl, ?_, ?_, ?_, ?_, ?_, ?_, ?_⟩
  · simp only [Vector2Add, Vector2Subtract, Vector2Scale, Vector2DotProduct, Vector2.mk.injEq]
    constructor <;> ring
  · simp only [lengthSqr, Vector2Add, Vector2Subtract, Vector2Scale, Vector2DotProduct]
    linear_combination (2 * ((b.vel.x - a.vel.x) * nx + (b.vel.y - a.vel.y) * ny) ^ 2) * hn
  · simp only [Vector2Add, Vector2Subtract, Vector2Scale, Vector2DotProduct]
    linear_combination (-2 * ((b.vel.x - a.vel.x) * nx + (b.vel.y - a.vel.y) * ny)) * hn
  · simp only [Vector2Add, Vector2Subtract, Vector2Scale, Vector2DotProduct]
    linear_combination ((b.vel.x - a.vel.x) * nx + (b.vel.y - a.vel.y) * ny) * hn
  · simp only [Vector2Add, Vector2Subtract, Vector2Scale, Vector2DotProduct]
    linear_combination (-((b.vel.x - a.vel.x) * nx + (b.vel.y - a.vel.y) * ny)) * hn
  · simp only [Vector2Add, Vector2Subtract, Vector2Scale, Vector2DotProduct, Vector2.mk.injEq]
    constructor
    · linear_combination
        (-(nx * ((b.vel.x - a.vel.x) * nx + (b.vel.y - a.vel.y) * ny))) * hn
    · linear_combination
        (-(ny * ((b.vel.x - a.vel.x) * nx + (b.vel.y - a.vel.y) * ny))) * hn
  · simp only [Vector2Add, Vector2Subtract, Vector2Scale, Vector2DotProduct, Vector2.mk.injEq]
    constructor
    · linear_combination
        (nx * ((b.vel.x - a.vel.x) * nx + (b.vel.y - a.vel.y) * ny)) * hn
    · linear_combination
        (ny * ((b.vel.x - a.vel.x) * nx + (b.vel.y - a.vel.y) * ny)) * hn

/-! ## The claims -/

/-- C7: when the centre distance is exactly zero, or at least the sum of the
radii, `ResolveCollision` returns both particles unchanged in every field; the
call returns a value, so it performed no division by zero. -/
theorem ResolveCollision_no_overlap_unchanged {K : Type} [LinearOrderedField K] (sqrtf : K → K) (a b : Particle K)
    (h : centerDist sqrtf a b = 0 ∨ a.radius + b.radius ≤ centerDist sqrtf a b) :
    ResolveCollision sqrtf a b = some (a, b) :=
  ResolveCollision_skip sqrtf a b h

/-- Witness of C7: two particles with the same centre, and two particles that
just touch, come back unchanged. -/
theorem ResolveCollision_no_overlap_unchanged_witness :
    ResolveCollision Rat.sqrt ⟨⟨5, 7⟩, ⟨1, 2⟩, 3, ⟨100, 110, 120, 255⟩⟩
        ⟨⟨5, 7⟩, ⟨-1, 0⟩, 4, ⟨200, 210, 220, 255⟩⟩
      = some (⟨⟨5, 7⟩, ⟨1, 2⟩, 3, ⟨100, 110, 120, 255⟩⟩,
              ⟨⟨5, 7⟩, ⟨-1, 0⟩, 4, ⟨200, 210, 220, 255⟩⟩)
    ∧ ResolveCollision Rat.sqrt ⟨⟨100, 100⟩, ⟨1, 0⟩, 3, ⟨100, 110, 120, 255⟩⟩
        ⟨⟨103, 104⟩, ⟨-1, 0⟩, 2, ⟨200, 210, 220, 255⟩⟩
      = some (⟨⟨100, 100⟩, ⟨1, 0⟩, 3, ⟨100, 110, 120, 255⟩⟩,
              ⟨⟨103, 104⟩, ⟨-1, 0⟩, 2, ⟨200, 210, 220, 255⟩⟩) := by
  constructor
  · apply ResolveCollision_no_overlap_unchanged
    left
    have h := ratSqrt_sq 0 (le_refl 0)
    simp only [mul_zero] at h
    simp [centerDist, Vector2Length, Vector2Subtract, h]
  · apply ResolveCollision_no_overlap_unchanged
    right
    have h := ratSqrt_sq 5 (by norm_num)
    norm_num at h
    norm_num [centerDist, Vector2Length, Vector2Subtract, h]

/-- C3: on an overlapping pair with distinct centres whose relative velocity
along the normal from `a` to `b` is positive, `ResolveCollision` corrects the
two positions and leaves both velocities (and radius and colour) as they were. -/
theorem ResolveCollision_separating_keeps_velocity {K : Type} [LinearOrderedField K] (sqrtf : K → K) (a b : Particle K)
    (h0 : 0 < centerDist sqrtf a b) (hlt : centerDist sqrtf a b < a.radius + b.radius)
    (hsep : 0 < Vector2DotProduct (Vector2Subtract b.vel a.vel) (collisionNormal sqrtf a b)) :
    ResolveCollision sqrtf a b =
      some ({ a with pos := Vector2Subtract a.pos (Vector2Scale (collisionNormal sqrtf a b)
                ((1 / 2) * (a.radius + b.radius - centerDist sqrtf a b))) },
            { b with pos := Vector2Add b.pos (Vector2Scale (collisionNormal sqrtf a b)
                ((1 / 2) * (a.radius + b.radius - centerDist sqrtf a b))) }) := by
  rw [ResolveCollision_overlap sqrtf a b h0 hlt, if_pos hsep]

/-- Witness of C3: centres 4 apart, radii 3, `a` moving left and `b` moving
right; the positions become 99 and 105 and the velocities stay. -/
theorem ResolveCollision_separating_keeps_velocity_witness :
    ResolveCollision Rat.sqrt ⟨⟨100, 100⟩, ⟨-2, 1⟩, 3, ⟨100, 110, 120, 255⟩⟩
        ⟨⟨104, 100⟩, ⟨5, 0⟩, 3, ⟨200, 210, 220, 255⟩⟩
      = some (⟨⟨99, 100⟩, ⟨-2, 1⟩, 3, ⟨100, 110, 120, 255⟩⟩,
              ⟨⟨105, 100⟩, ⟨5, 0⟩, 3, ⟨200, 210, 220, 255⟩⟩) := by
  have h := ratSqrt_sq 4 (by norm_num)
  norm_num at h
  have hd : centerDist Rat.sqrt ⟨⟨100, 100⟩, ⟨-2, 1⟩, 3, ⟨100, 110, 120, 255⟩⟩
      ⟨⟨104, 100⟩, ⟨5, 0⟩, 3, ⟨200, 210, 220, 255⟩⟩ = 4 := by
    norm_num [centerDist, Vector2Length, Vector2Subtract, h]
  have hn : collisionNormal Rat.sqrt ⟨⟨100, 100⟩, ⟨-2, 1⟩, 3, ⟨100, 110, 120, 255⟩⟩
      ⟨⟨104, 100⟩, ⟨5, 0⟩, 3, ⟨200, 210, 220, 255⟩⟩ = ⟨1, 0⟩ := by
    norm_num [collisionNormal, Vector2Length, Vector2Subtract, Vector2Scale, h]
  have key := ResolveCollision_separating_keeps_velocity Rat.sqrt
    ⟨⟨100, 100⟩, ⟨-2, 1⟩, 3, ⟨100, 110, 120, 255⟩⟩
    ⟨⟨104, 100⟩, ⟨5, 0⟩, 3, ⟨200, 210, 220, 255⟩⟩
    (by rw [hd]; norm_num) (by rw [hd]; norm_num)
    (by rw [hn]; norm_num [Vector2DotProduct, Vector2Subtract])
  rw [key, hn, hd]
  norm_num [Vector2Subtract, Vector2Add, Vector2Scale]

/-- C1: in real arithmetic, on every pair whose centre distance `d` satisfies
`0 < d < a.radius + b.radius`, `ResolveCollision` moves `a` by
`-((a.radius + b.radius - d)/2) * n` and `b` by `+((a.radius + b.radius - d)/2)
* n` along the unit normal `n` from `a` to `b`; the squared centre distance
afterwards is `(a.radius + b.radius)^2` and the distance is `a.radius +
b.radius`, which is at least `a.radius + b.radius - ε` for every `ε ≥ 0`. -/
theorem ResolveCollision_removes_overlap (a b : Particle ℝ)
    (h0 : 0 < centerDist Real.sqrt a b)
    (hlt : centerDist Real.sqrt a b < a.radius + b.radius) :
    ∃ a1 b1 : Particle ℝ, ResolveCollision Real.sqrt a b = some (a1, b1)
      ∧ Vector2DotProduct (collisionNormal Real.sqrt a b) (collisionNormal Real.sqrt a b) = 1
      ∧ a1.pos = Vector2Subtract a.pos (Vector2Scale (collisionNormal Real.sqrt a b)
          ((a.radius + b.radius - centerDist Real.sqrt a b) / 2))
      ∧ b1.pos = Vector2Add b.pos (Vector2Scale (collisionNormal Real.sqrt a b)
          ((a.radius + b.radius - centerDist Real.sqrt a b) / 2))
      ∧ lengthSqr (Vector2Subtract b1.pos a1.pos)
          = (a.radius + b.radius) * (a.radius + b.radius)
      ∧ centerDist Real.sqrt a1 b1 = a.radius + b.radius
      ∧ ∀ ε : ℝ, 0 ≤ ε → a.radius + b.radius - ε ≤ centerDist Real.sqrt a1 b1 :=
  removes_overlap_of_exact Real.sqrt a b h0 hlt
    (exactSqrtAt_realSqrt _ (lengthSqr_nonneg _))
    (exactSqrtAt_realSqrt _ (mul_self_nonneg _))

/-- Witness of C1: `a` at (100,100), `b` at (104,100), both of radius 3 and at
rest, end at (99,100) and (105,100), 6 apart; and centres (0,0) and (1,1), at
the irrational distance `√2`, with radii 3 end exactly 6 apart. -/
theorem ResolveCollision_removes_overlap_witness :
    (∃ a1 b1 : Particle ℝ,
      ResolveCollision Real.sqrt ⟨⟨100, 100⟩, ⟨0, 0⟩, 3, ⟨100, 110, 120, 255⟩⟩
        ⟨⟨104, 100⟩, ⟨0, 0⟩, 3, ⟨200, 210, 220, 255⟩⟩ = some (a1, b1)
      ∧ a1.pos = ⟨99, 100⟩ ∧ b1.pos = ⟨105, 100⟩ ∧ centerDist Real.sqrt a1 b1 = 6)
    ∧ (∃ a1 b1 : Particle ℝ,
      ResolveCollision Real.sqrt ⟨⟨0, 0⟩, ⟨0, 0⟩, 3, ⟨100, 110, 120, 255⟩⟩
        ⟨⟨1, 1⟩, ⟨0, 0⟩, 3, ⟨200, 210, 220, 255⟩⟩ = some (a1, b1)
      ∧ lengthSqr (Vector2Subtract b1.pos a1.pos) = 36
      ∧ centerDist Real.sqrt a1 b1 = 6) := by
  constructor
  · have h16 : Real.sqrt 16 = 4 := by
      rw [show (16 : ℝ) = 4 * 4 by norm_num, Real.sqrt_mul_self (by norm_num)]
    have hd : centerDist Real.sqrt ⟨⟨100, 100⟩, ⟨0, 0⟩, 3, ⟨100, 110, 120, 255⟩⟩
        ⟨⟨104, 100⟩, ⟨0, 0⟩, 3, ⟨200, 210, 220, 255⟩⟩ = 4 := by
      norm_num [centerDist, Vector2Length, Vector2Subtract, h16]
    have hn : collisionNormal Real.sqrt ⟨⟨100, 100⟩, ⟨0, 0⟩, 3, ⟨100, 110, 120, 255⟩⟩
        ⟨⟨104, 100⟩, ⟨0, 0⟩, 3, ⟨200, 210, 220, 255⟩⟩ = ⟨1, 0⟩ := by
      norm_num [collisionNormal, Vector2Length, Vector2Subtract, Vector2Scale, h16]
    obtain ⟨a1, b1, hrc, -, ha, hb, -, hdist, -⟩ :=
      ResolveCollision_removes_overlap
        ⟨⟨100, 100⟩, ⟨0, 0⟩, 3, ⟨100, 110, 120, 255⟩⟩
        ⟨⟨104, 100⟩, ⟨0, 0⟩, 3, ⟨200, 210, 220, 255⟩⟩
        (by rw [hd]; norm_num) (by rw [hd]; norm_num)
    refine ⟨a1, b1, hrc, ?_, ?_, ?_⟩
    · rw [ha, hn, hd]
      norm_num [Vector2Subtract, Vector2Scale]
    · rw [hb, hn, hd]
      norm_num [Vector2Add, Vector2Scale]
    · rw [hdist]
      norm_num
  · have hd : centerDist Real.sqrt ⟨⟨0, 0⟩, ⟨0, 0⟩, 3, ⟨100, 110, 120, 255⟩⟩
        ⟨⟨1, 1⟩, ⟨0, 0⟩, 3, ⟨200, 210, 220, 255⟩⟩ = Real.sqrt 2 := by
      norm_num [centerDist, Vector2Length, Vector2Subtract]
    have h2 : (0 : ℝ) < Real.sqrt 2 := Real.sqrt_pos.mpr (by norm_num)
    have h3 : Real.sqrt 2 < 3 + 3 := by
      rw [Real.sqrt_lt' (by norm_num)]
      norm_num
    obtain ⟨a1, b1, hrc, -, -, -, hsq, hdist, -⟩ :=
      ResolveCollision_removes_overlap
        ⟨⟨0, 0⟩, ⟨0, 0⟩, 3, ⟨100, 110, 120, 255⟩⟩
        ⟨⟨1, 1⟩, ⟨0, 0⟩, 3, ⟨200, 210, 220, 255⟩⟩
        (by rw [hd]; exact h2) (by rw [hd]; exact h3)
    refine ⟨a1, b1, hrc, ?_, ?_⟩
    · rw [hsq]
      norm_num
    · rw [hdist]
      norm_num

/-- C9: in real arithmetic, on every overlapping pair with distinct centres whose
relative velocity along the unit normal `n` is not separating (at most zero),
the velocities after `ResolveCollision` have the same sum and the same sum of
squared speeds, the relative velocity along `n` is negated, the components
along `n` are exchanged and the tangential parts are kept. -/
theorem ResolveCollision_elastic (a b : Particle ℝ)
    (h0 : 0 < centerDist Real.sqrt a b)
    (hlt : centerDist Real.sqrt a b < a.radius + b.radius)
    (hns : Vector2DotProduct (Vector2Subtract b.vel a.vel) (collisionNormal Real.sqrt a b) ≤ 0) :
    ∃ a1 b1 : Particle ℝ, ResolveCollision Real.sqrt a b = some (a1, b1)
      ∧ Vector2Add a1.vel b1.vel = Vector2Add a.vel b.vel
      ∧ lengthSqr a1.vel + lengthSqr b1.vel = lengthSqr a.vel + lengthSqr b.vel
      ∧ Vector2DotProduct (Vector2Subtract b1.vel a1.vel) (collisionNormal Real.sqrt a b)
          = - Vector2DotProduct (Vector2Subtract b.vel a.vel) (collisionNormal Real.sqrt a b)
      ∧ Vector2DotProduct a1.vel (collisionNormal Real.sqrt a b)
          = Vector2DotProduct b.vel (collisionNormal Real.sqrt a b)
      ∧ Vector2DotProduct b1.vel (collisionNormal Real.sqrt a b)
          = Vector2DotProduct a.vel (collisionNormal Real.sqrt a b)
      ∧ Vector2Subtract a1.vel (Vector2Scale (collisionNormal Real.sqrt a b)
            (Vector2DotProduct a1.vel (collisionNormal Real.sqrt a b)))
          = Vector2Subtract a.vel (Vector2Scale (collisionNormal Real.sqrt a b)
            (Vector2DotProduct a.vel (collisionNormal Real.sqrt a b)))
      ∧ Vector2Subtract b1.vel (Vector2Scale (collisionNormal Real.sqrt a b)
            (Vector2DotProduct b1.vel (collisionNormal Real.sqrt a b)))
          = Vector2Subtract b.vel (Vector2Scale (collisionNormal Real.sqrt a b)
            (Vector2DotProduct b.vel (collisionNormal Real.sqrt a b))) :=
  elastic_of_exact Real.sqrt a b h0 hlt (exactSqrtAt_realSqrt _ (lengthSqr_nonneg _)) hns

/-- Witness of C9: a head-on approach along the x axis, `a` moving right at 2
and `b` moving left at 1 with a common upward drift, where the x velocities
are exchanged and the y velocities kept; and centres (0,0) and (1,1), at the
irrational distance `√2`, approaching along the diagonal with velocities (1,1)
and (-1,-1), where the velocities are exchanged. -/
theorem ResolveCollision_elastic_witness :
    (∃ a1 b1 : Particle ℝ,
      ResolveCollision Real.sqrt ⟨⟨100, 100⟩, ⟨2, 1⟩, 3, ⟨100, 110, 120, 255⟩⟩
        ⟨⟨104, 100⟩, ⟨-1, 1⟩, 3, ⟨200, 210, 220, 255⟩⟩ = some (a1, b1)
      ∧ Vector2Add a1.vel b1.vel = ⟨1, 2⟩
      ∧ lengthSqr a1.vel + lengthSqr b1.vel = 7
      ∧ Vector2DotProduct a1.vel ⟨1, 0⟩ = -1
      ∧ Vector2DotProduct b1.vel ⟨1, 0⟩ = 2)
    ∧ (∃ a1 b1 : Particle ℝ,
      ResolveCollision Real.sqrt ⟨⟨0, 0⟩, ⟨1, 1⟩, 3, ⟨100, 110, 120, 255⟩⟩
        ⟨⟨1, 1⟩, ⟨-1, -1⟩, 3, ⟨200, 210, 220, 255⟩⟩ = some (a1, b1)
      ∧ Vector2Add a1.vel b1.vel = ⟨0, 0⟩
      ∧ lengthSqr a1.vel + lengthSqr b1.vel = 4
      ∧ Vector2DotProduct a1.vel ⟨1, 1⟩ = -2
      ∧ Vector2DotProduct b1.vel ⟨1, 1⟩ = 2) := by
  constructor
  · have h16 : Real.sqrt 16 = 4 := by
      rw [show (16 : ℝ) = 4 * 4 by norm_num, Real.sqrt_mul_self (by norm_num)]
    have hd : centerDist Real.sqrt ⟨⟨100, 100⟩, ⟨2, 1⟩, 3, ⟨100, 110, 120, 255⟩⟩
        ⟨⟨104, 100⟩, ⟨-1, 1⟩, 3, ⟨200, 210, 220, 255⟩⟩ = 4 := by
      norm_num [centerDist, Vector2Length, Vector2Subtract, h16]
    have hn : collisionNormal Real.sqrt ⟨⟨100, 100⟩, ⟨2, 1⟩, 3, ⟨100, 110, 120, 255⟩⟩
        ⟨⟨104, 100⟩, ⟨-1, 1⟩, 3, ⟨200, 210, 220, 255⟩⟩ = ⟨1, 0⟩ := by
      norm_num [collisionNormal, Vector2Length, Vector2Subtract, Vector2Scale, h16]
    obtain ⟨a1, b1, hrc, hsum, hen, -, han, hbn, -, -⟩ :=
      ResolveCollision_elastic
        ⟨⟨100, 100⟩, ⟨2, 1⟩, 3, ⟨100, 110, 120, 255⟩⟩
        ⟨⟨104, 100⟩, ⟨-1, 1⟩, 3, ⟨200, 210, 220, 255⟩⟩
        (by rw [hd]; norm_num) (by rw [hd]; norm_num)
        (by rw [hn]; norm_num [Vector2DotProduct, Vector2Subtract])
    rw [hn] at han hbn
    refine ⟨a1, b1, hrc, ?_, ?_, ?_, ?_⟩
    · rw [hsum]
      norm_num [Vector2Add]
    · rw [hen]
      norm_num [lengthSqr]
    · rw [han]
      norm_num [Vector2DotProduct]
    · rw [hbn]
      norm_num [Vector2DotProduct]
  · have hd : centerDist Real.sqrt ⟨⟨0, 0⟩, ⟨1, 1⟩, 3, ⟨100, 110, 120, 255⟩⟩
        ⟨⟨1, 1⟩, ⟨-1, -1⟩, 3, ⟨200, 210, 220, 255⟩⟩ = Real.sqrt 2 := by
      norm_num [centerDist, Vector2Length, Vector2Subtract]
    have h2 : (0 : ℝ) < Real.sqrt 2 := Real.sqrt_pos.mpr (by norm_num)
    have h3 : Real.sqrt 2 < 3 + 3 := by
      rw [Real.sqrt_lt' (by norm_num)]
      norm_num
    have hinv : (0 : ℝ) < 1 / Real.sqrt 2 := one_div_pos.mpr h2
    have hn : collisionNormal Real.sqrt ⟨⟨0, 0⟩, ⟨1, 1⟩, 3, ⟨100, 110, 120, 255⟩⟩
        ⟨⟨1, 1⟩, ⟨-1, -1⟩, 3, ⟨200, 210, 220, 255⟩⟩
        = ⟨1 / Real.sqrt 2, 1 / Real.sqrt 2⟩ := by
      norm_num [collisionNormal, Vector2Length, Vector2Subtract, Vector2Scale]
    obtain ⟨a1, b1, hrc, hsum, hen, -, han, hbn, -, -⟩ :=
      ResolveCollision_elastic
        ⟨⟨0, 0⟩, ⟨1, 1⟩, 3, ⟨100, 110, 120, 255⟩⟩
        ⟨⟨1, 1⟩, ⟨-1, -1⟩, 3, ⟨200, 210, 220, 255⟩⟩
        (by rw [hd]; exact h2) (by rw [hd]; exact h3)
        (by
          rw [hn]
          simp only [Vector2DotProduct, Vector2Subtract]
          linarith)
    rw [hn] at han hbn
    simp only [Vector2DotProduct] at han hbn
    have hne : Real.sqrt 2 ≠ 0 := ne_of_gt h2
    refine ⟨a1, b1, hrc, ?_, ?_, ?_, ?_⟩
    · rw [hsum]
      norm_num [Vector2Add]
    · rw [hen]
      norm_num [lengthSqr]
    · simp only [Vector2DotProduct]
      field_simp at han
      linarith
    · simp only [Vector2DotProduct]
      field_simp at hbn
      linarith

/-- C6, evaluated at the failing input: with the mouse exactly on the centre
of a particle the distance is zero, the repulsion branch is entered, and
`diff.x / dist` divides by zero; the repulsion is not skipped. -/
theorem updateParticle_mouse_on_center_divides_by_zero :
    mouseDist Rat.sqrt ⟨100, 100⟩ ⟨⟨100, 100⟩, ⟨0, 0⟩, 3, ⟨100, 110, 120, 255⟩⟩ = 0
    ∧ repel Rat.sqrt (1 / 120) ⟨100, 100⟩ ⟨⟨100, 100⟩, ⟨0, 0⟩, 3, ⟨100, 110, 120, 255⟩⟩ = none
    ∧ updateParticle Rat.sqrt (1 / 120) ⟨100, 100⟩
        ⟨⟨100, 100⟩, ⟨0, 0⟩, 3, ⟨100, 110, 120, 255⟩⟩ = none := by
  have h := ratSqrt_sq 0 (le_refl 0)
  simp only [mul_zero] at h
  have hd : mouseDist Rat.sqrt ⟨100, 100⟩ ⟨⟨100, 100⟩, ⟨0, 0⟩, 3, ⟨100, 110, 120, 255⟩⟩ = 0 := by
    simp [mouseDist, h]
  exact ⟨hd, repel_zero _ _ _ _ hd, updateParticle_zero _ _ _ _ hd⟩

/-- C10, evaluated at the failing input: a particle of radius 5 in the middle
of the window with the mouse on its centre has no updated position inside
the walls, because the update divides by zero. -/
theorem updateParticle_not_contained_mouse_on_center :
    ¬ ∃ q, updateParticle Rat.sqrt (1 / 120) ⟨400, 300⟩
          ⟨⟨400, 300⟩, ⟨0, 0⟩, 5, ⟨100, 110, 120, 255⟩⟩ = some q
        ∧ 5 ≤ q.pos.x ∧ q.pos.x ≤ 800 - 5 ∧ 5 ≤ q.pos.y ∧ q.pos.y ≤ 600 - 5 := by
  have h := ratSqrt_sq 0 (le_refl 0)
  simp only [mul_zero] at h
  have hd : mouseDist Rat.sqrt ⟨400, 300⟩ ⟨⟨400, 300⟩, ⟨0, 0⟩, 5, ⟨100, 110, 120, 255⟩⟩ = 0 := by
    simp [mouseDist, h]
  rintro ⟨q, hq, -⟩
  rw [updateParticle_zero _ _ _ _ hd] at hq
  exact Option.noConfusion hq

/-- Counterexample to C5: the particle at (2,50) of radius 3 with velocity
(-100,0), the mouse 100 away, and the float `dt = 13981013 / 16777216`
(0.8333333134651184). All premises of the claim hold, `1.2 * dt ≤ 1` with the
decimal 1.2 included; but the program's constant `1.2f` exceeds 1.2 and
`1.2f * dt > 1`, so drag reverses the velocity before the wall negates it:
the update ends with `pos.x = 3` and `vel.x < 0`. -/
theorem updateParticle_left_wall_drag_overshoot :
    (2 : ℚ) * 3 ≤ 800 ∧ (-100 : ℚ) ≤ 0
    ∧ (0 : ℚ) ≤ 6 / 5 * (13981013 / 16777216) ∧ (6 / 5 : ℚ) * (13981013 / 16777216) ≤ 1
    ∧ (1 : ℚ) < dragStrength * (13981013 / 16777216)
    ∧ 75 ≤ mouseDist Rat.sqrt ⟨102, 50⟩ ⟨⟨2, 50⟩, ⟨-100, 0⟩, 3, ⟨100, 110, 120, 255⟩⟩
    ∧ (integrate (13981013 / 16777216 : ℚ)
        (drag (13981013 / 16777216) ⟨⟨2, 50⟩, ⟨-100, 0⟩, 3, ⟨100, 110, 120, 255⟩⟩)).pos.x < 3
    ∧ ∃ q, updateParticle Rat.sqrt (13981013 / 16777216) ⟨102, 50⟩
          ⟨⟨2, 50⟩, ⟨-100, 0⟩, 3, ⟨100, 110, 120, 255⟩⟩ = some q
        ∧ q.pos.x = 3 ∧ q.vel.x < 0 := by
  have h := ratSqrt_sq 100 (by norm_num)
  norm_num at h
  have hd : mouseDist Rat.sqrt ⟨102, 50⟩ ⟨⟨2, 50⟩, ⟨-100, 0⟩, 3, ⟨100, 110, 120, 255⟩⟩
      = 100 := by
    norm_num [mouseDist, h]
  refine ⟨by norm_num, by norm_num, by norm_num, by norm_num, by norm_num [dragStrength],
    by rw [hd]; norm_num, by norm_num [integrate, drag, dragStrength], ?_⟩
  refine ⟨bounce (integrate (13981013 / 16777216)
    (drag (13981013 / 16777216) ⟨⟨2, 50⟩, ⟨-100, 0⟩, 3, ⟨100, 110, 120, 255⟩⟩)), ?_, ?_, ?_⟩
  · rw [updateParticle, repel_far _ _ _ _ (by rw [hd]; norm_num [influenceRad])]
    rfl
  · norm_num [bounce, bounceLeft, bounceRight, bounceTop, bounceBottom, integrate, drag,
      dragStrength, screenWidth, screenHeight]
  · norm_num [bounce, bounceLeft, bounceRight, bounceTop, bounceBottom, integrate, drag,
      dragStrength, screenWidth, screenHeight]

/-- C5 as amended: for a particle with `2 * radius ≤ 800` and `vel.x ≤ 0`, a time
step with `dragStrength * dt ≤ 1`, where `dragStrength` is the program's
constant `1.2f = 5033165 / 4194304`, and the mouse at distance at least 75,
if the position after drag and integration has `pos.x < radius`, then the
update returns a particle with `pos.x = radius` and with x velocity
`-(vel.x - vel.x * dragStrength * dt)`, the negated velocity after drag,
which is non-negative. -/
theorem updateParticle_left_wall {K : Type} [LinearOrderedField K] (sqrtf : K → K) (dt : K)
    (mouse : Vector2 K) (p : Particle K)
    (hr : 2 * p.radius ≤ 800) (hv : p.vel.x ≤ 0) (hdt1 : dragStrength * dt ≤ 1)
    (hm : 75 ≤ mouseDist sqrtf mouse p)
    (hx : (integrate dt (drag dt p)).pos.x < p.radius) :
    ∃ q, updateParticle sqrtf dt mouse p = some q
      ∧ q.pos.x = p.radius
      ∧ q.vel.x = -(p.vel.x - p.vel.x * dragStrength * dt)
      ∧ 0 ≤ q.vel.x := by
  have hrep := repel_far sqrtf dt mouse p hm
  have hvel : 0 ≤ -(p.vel.x - p.vel.x * dragStrength * dt) := by
    have : -(p.vel.x - p.vel.x * dragStrength * dt) = (-p.vel.x) * (1 - dragStrength * dt) := by
      ring
    rw [this]
    exact mul_nonneg (by linarith) (by linarith)
  have hb : (bounce (integrate dt (drag dt p))).pos.x = p.radius
      ∧ (bounce (integrate dt (drag dt p))).vel.x
          = -(p.vel.x - p.vel.x * dragStrength * dt) := by
    have hx1 : p.pos.x + (p.vel.x - p.vel.x * dragStrength * dt) * dt < p.radius := hx
    unfold bounce bounceBottom bounceTop bounceRight bounceLeft integrate drag screenWidth
      screenHeight
    simp only [hx1, if_true]
    have hnr : ¬ (p.radius > 800 - p.radius) := by
      intro h
      linarith
    simp only [hnr, if_false]
    split_ifs <;> (constructor <;> ring)
  refine ⟨bounce (integrate dt (drag dt p)), ?_, hb.1, hb.2, ?_⟩
  · simp only [updateParticle, hrep, Option.map_some']
  · rw [hb.2]
    exact hvel

/-- Witness of the amended C5: the particle at (2,50) of radius 3 with velocity
(-5,0), the mouse 100 away and `dt = 1/120`, ends with `pos.x = 3` and
`vel.x > 0`. -/
theorem updateParticle_left_wall_witness :
    ∃ q, updateParticle Rat.sqrt (1 / 120) ⟨102, 50⟩
          ⟨⟨2, 50⟩, ⟨-5, 0⟩, 3, ⟨100, 110, 120, 255⟩⟩ = some q
      ∧ q.pos.x = 3 ∧ 0 < q.vel.x := by
  have h := ratSqrt_sq 100 (by norm_num)
  norm_num at h
  have hd : mouseDist Rat.sqrt ⟨102, 50⟩ ⟨⟨2, 50⟩, ⟨-5, 0⟩, 3, ⟨100, 110, 120, 255⟩⟩ = 100 := by
    norm_num [mouseDist, h]
  obtain ⟨q, hq, hpos, hvel, -⟩ :=
    updateParticle_left_wall Rat.sqrt (1 / 120) ⟨102, 50⟩
      ⟨⟨2, 50⟩, ⟨-5, 0⟩, 3, ⟨100, 110, 120, 255⟩⟩
      (by norm_num) (by norm_num) (by norm_num [dragStrength])
      (by rw [hd]; norm_num) (by norm_num [integrate, drag, dragStrength])
  refine ⟨q, hq, hpos, ?_⟩
  rw [hvel]
  norm_num [dragStrength]

/-- C8: the collision pass on `n` particles is the sequential resolution of the
index pairs of `pairsInOrder n`, each call on the vector left by the calls
before it; run on a body that records its arguments, the two loops record
exactly `pairsInOrder n`. That table holds precisely the pairs `(i, j)` with
`i < j < n` (so none with `i = j`, and never both `(i, j)` and `(j, i)`), each
once, in strictly increasing lexicographic order, `n * (n - 1) / 2` in all.
The pass always returns and keeps the number of particles. -/
theorem collisionPass_visits_each_pair_once {K : Type} [LinearOrderedField K] (sqrtf : K → K) (ps : List (Particle K)) :
    collisionPass sqrtf ps = runPairs (resolveAt sqrtf) (pairsInOrder ps.length) ps
    ∧ outerLoop recordCall ps.length 0 [] = some (pairsInOrder ps.length)
    ∧ (∀ i j : Nat, (i, j) ∈ pairsInOrder ps.length ↔ i < j ∧ j < ps.length)
    ∧ (∀ i j : Nat, (i, j) ∈ pairsInOrder ps.length → (j, i) ∉ pairsInOrder ps.length)
    ∧ (pairsInOrder ps.length).Nodup
    ∧ (pairsInOrder ps.length).Pairwise (fun p q => p.1 < q.1 ∨ (p.1 = q.1 ∧ p.2 < q.2))
    ∧ (pairsInOrder ps.length).length = ps.length * (ps.length - 1) / 2
    ∧ ∃ ps1, collisionPass sqrtf ps = some ps1 ∧ ps1.length = ps.length := by
  refine ⟨collisionPass_eq sqrtf ps, ?_, mem_pairsInOrder ps.length, ?_,
    pairsInOrder_nodup ps.length, pairsInOrder_sorted ps.length,
    pairsInOrder_length ps.length, collisionPass_some sqrtf ps⟩
  · rw [outerLoop_eq_runPairs, runPairs_recordCall, List.nil_append]
  · intro i j h h2
    have h1 := (mem_pairsInOrder ps.length i j).mp h
    have h3 := (mem_pairsInOrder ps.length j i).mp h2
    omega

/-- C4: from the initial state (MENU, count 500), after any sequence of menu
frames the count lies in 100..2500; a further menu frame writes the count
changed by +100 for UP and -100 for DOWN and clamped to 100..2500; a frame
with ENTER pressed switches to SIMULATE and leaves exactly that many
particles in the vector. The clamp sends 50 to 100 and 3000 to 2500, and
the initialisation loop builds 100 and 2500 particles for them. -/
theorem menu_count_clamped (rnd : Nat → Int → Int → Int) (inputs : List MenuInput)
    (inp : MenuInput) :
    initialApp.state = AppState.MENU ∧ initialApp.particleCount = 500
    ∧ 100 ≤ (menuRun rnd inputs initialApp).particleCount
    ∧ (menuRun rnd inputs initialApp).particleCount ≤ 2500
    ∧ ((menuRun rnd inputs initialApp).state = AppState.SIMULATE →
        ((menuRun rnd inputs initialApp).particles.length : Int)
          = (menuRun rnd inputs initialApp).particleCount)
    ∧ (menuFrame rnd inp (menuRun rnd inputs initialApp)).particleCount
        = max 100 (min ((if inp.down then
              (if inp.up then (menuRun rnd inputs initialApp).particleCount + 100
                else (menuRun rnd inputs initialApp).particleCount) - 100
            else (if inp.up then (menuRun rnd inputs initialApp).particleCount + 100
                else (menuRun rnd inputs initialApp).particleCount))) 2500)
    ∧ (inp.enter = true →
        (menuFrame rnd inp (menuRun rnd inputs initialApp)).state = AppState.SIMULATE
        ∧ ((menuFrame rnd inp (menuRun rnd inputs initialApp)).particles.length : Int)
            = (menuFrame rnd inp (menuRun rnd inputs initialApp)).particleCount)
    ∧ Clamp 50 100 2500 = 100 ∧ Clamp 3000 100 2500 = 2500
    ∧ (initLoop rnd (floatToInt (Clamp 50 100 2500)) 0 []).length = 100
    ∧ (initLoop rnd (floatToInt (Clamp 3000 100 2500)) 0 []).length = 2500 := by
  have hinit : MenuInv initialApp := by
    refine ⟨by decide, by decide, ?_⟩
    intro h
    exact absurd h (by decide)
  have hinv := menuRun_inv rnd inputs initialApp hinit
  have h50 : floatToInt (Clamp 50 100 2500) = 100 := by
    have := clamp_count 50
    norm_num at this
    exact this
  have h3000 : floatToInt (Clamp 3000 100 2500) = 2500 := by
    have := clamp_count 3000
    norm_num at this
    exact this
  refine ⟨rfl, rfl, hinv.1, hinv.2.1, hinv.2.2, menuFrame_count rnd inp _, ?_, ?_, ?_, ?_, ?_⟩
  · intro he
    have hc := menuFrame_count rnd inp (menuRun rnd inputs initialApp)
    have hlo : 100 ≤ (menuFrame rnd inp (menuRun rnd inputs initialApp)).particleCount := by
      rw [hc]
      omega
    unfold menuFrame at hlo ⊢
    simp only [he, if_true] at hlo ⊢
    refine ⟨trivial, ?_⟩
    rw [initLoop_length rnd _ _ 0 [] rfl]
    simp only [List.length_nil, Nat.zero_add, Nat.cast_zero, sub_zero]
    omega
  · norm_num [Clamp]
  · norm_num [Clamp]
  · rw [h50, initLoop_length rnd 100 100 0 [] (by simp)]
    rfl
  · rw [h3000, initLoop_length rnd 2500 2500 0 [] (by simp)]
    rfl

/-- Counterexample to C2: two particles of radius 3 at rest at (3,300) and
(5,300), the mouse 100 away and `dt = 1/120`. The per-particle loop leaves
them in place; the collision pass then pushes the first to `x = 1`, which is
below `radius - 0.001`. -/
theorem simulationStep_leaves_walls :
    (∀ p ∈ [(⟨⟨3, 300⟩, ⟨0, 0⟩, 3, ⟨100, 110, 120, 255⟩⟩ : Particle ℚ),
          ⟨⟨5, 300⟩, ⟨0, 0⟩, 3, ⟨200, 210, 220, 255⟩⟩], 3 ≤ p.radius ∧ p.radius ≤ 6)
    ∧ (0 : ℚ) ≤ 1 / 120
    ∧ simulationStep Rat.sqrt (1 / 120) ⟨103, 300⟩
        [⟨⟨3, 300⟩, ⟨0, 0⟩, 3, ⟨100, 110, 120, 255⟩⟩,
         ⟨⟨5, 300⟩, ⟨0, 0⟩, 3, ⟨200, 210, 220, 255⟩⟩]
      = some [⟨⟨1, 300⟩, ⟨0, 0⟩, 3, ⟨100, 110, 120, 255⟩⟩,
              ⟨⟨7, 300⟩, ⟨0, 0⟩, 3, ⟨200, 210, 220, 255⟩⟩]
    ∧ ∃ q ∈ [(⟨⟨1, 300⟩, ⟨0, 0⟩, 3, ⟨100, 110, 120, 255⟩⟩ : Particle ℚ),
          ⟨⟨7, 300⟩, ⟨0, 0⟩, 3, ⟨200, 210, 220, 255⟩⟩], q.pos.x < q.radius - 1 / 1000 := by
  have h100 := ratSqrt_sq 100 (by norm_num)
  have h98 := ratSqrt_sq 98 (by norm_num)
  have h2 := ratSqrt_sq 2 (by norm_num)
  norm_num at h100 h98 h2
  refine ⟨?_, by norm_num, ?_, ?_⟩
  · intro p hp
    simp only [List.mem_cons, List.mem_singleton, List.not_mem_nil, or_false] at hp
    rcases hp with rfl | rfl <;> norm_num
  · have hup : updateAll Rat.sqrt (1 / 120) ⟨103, 300⟩
        [⟨⟨3, 300⟩, ⟨0, 0⟩, 3, ⟨100, 110, 120, 255⟩⟩,
         ⟨⟨5, 300⟩, ⟨0, 0⟩, 3, ⟨200, 210, 220, 255⟩⟩]
        = some [⟨⟨3, 300⟩, ⟨0, 0⟩, 3, ⟨100, 110, 120, 255⟩⟩,
                ⟨⟨5, 300⟩, ⟨0, 0⟩, 3, ⟨200, 210, 220, 255⟩⟩] := by
      have e1 : updateParticle Rat.sqrt (1 / 120) ⟨103, 300⟩
          ⟨⟨3, 300⟩, ⟨0, 0⟩, 3, ⟨100, 110, 120, 255⟩⟩
          = some ⟨⟨3, 300⟩, ⟨0, 0⟩, 3, ⟨100, 110, 120, 255⟩⟩ := by
        rw [updateParticle, repel_far _ _ _ _ (by norm_num [mouseDist, influenceRad, h100])]
        norm_num [bounce, bounceLeft, bounceRight, bounceTop, bounceBottom, integrate, drag,
          screenWidth, screenHeight]
      have e2 : updateParticle Rat.sqrt (1 / 120) ⟨103, 300⟩
          ⟨⟨5, 300⟩, ⟨0, 0⟩, 3, ⟨200, 210, 220, 255⟩⟩
          = some ⟨⟨5, 300⟩, ⟨0, 0⟩, 3, ⟨200, 210, 220, 255⟩⟩ := by
        rw [updateParticle, repel_far _ _ _ _ (by norm_num [mouseDist, influenceRad, h98])]
        norm_num [bounce, bounceLeft, bounceRight, bounceTop, bounceBottom, integrate, drag,
          screenWidth, screenHeight]
      simp only [updateAll, e1, e2, Option.some_bind, Option.map_some']
    have hpairs : pairsInOrder 2 = [(0, 1)] := by decide
    have hrc : ResolveCollision Rat.sqrt ⟨⟨3, 300⟩, ⟨0, 0⟩, 3, ⟨100, 110, 120, 255⟩⟩
        ⟨⟨5, 300⟩, ⟨0, 0⟩, 3, ⟨200, 210, 220, 255⟩⟩
        = some (⟨⟨1, 300⟩, ⟨0, 0⟩, 3, ⟨100, 110, 120, 255⟩⟩,
                ⟨⟨7, 300⟩, ⟨0, 0⟩, 3, ⟨200, 210, 220, 255⟩⟩) := by
      simp [ResolveCollision, Vector2Length, Vector2Subtract, Vector2Scale, Vector2Add,
        Vector2DotProduct, fdiv]
      norm_num [h2]
    simp only [simulationStep, hup, Option.some_bind, collisionPass_eq, List.length_cons,
      List.length_nil, hpairs, runPairs, resolveAt, List.getElem?_cons_zero,
      List.getElem?_cons_succ, hrc, Option.map_some', List.set_cons_zero, List.set_cons_succ]
  · exact ⟨_, List.mem_cons_self _ _, by norm_num⟩

/-- C2 as amended: for particles with radii in [3, 6], any `dt` and a mouse that
is on no particle centre, the per-particle loop returns one particle per
input particle, each with `radius ≤ pos.x ≤ 800 - radius` and `radius ≤ pos.y
≤ 600 - radius`; and when no two of these overlap (every pair has centre
distance zero or at least the sum of the radii) the collision pass changes
nothing, so the whole update step returns exactly these particles. -/
theorem simulationStep_contained_without_overlap {K : Type} [LinearOrderedField K] (sqrtf : K → K) (dt : K) (mouse : Vector2 K)
    (ps : List (Particle K))
    (hrad : ∀ p ∈ ps, 3 ≤ p.radius ∧ p.radius ≤ 6)
    (hm : ∀ p ∈ ps, mouseDist sqrtf mouse p ≠ 0) :
    ∃ qs, updateAll sqrtf dt mouse ps = some qs ∧ qs.length = ps.length
      ∧ (∀ q ∈ qs, 3 ≤ q.radius ∧ q.radius ≤ 6
            ∧ q.radius ≤ q.pos.x ∧ q.pos.x ≤ 800 - q.radius
            ∧ q.radius ≤ q.pos.y ∧ q.pos.y ≤ 600 - q.radius)
      ∧ ((∀ (i j : Nat) (a b : Particle K), i < j → qs[i]? = some a → qs[j]? = some b →
            centerDist sqrtf a b = 0 ∨ a.radius + b.radius ≤ centerDist sqrtf a b) →
          simulationStep sqrtf dt mouse ps = some qs) := by
  obtain ⟨qs, hqs, hlen, hall⟩ := updateAll_contained sqrtf dt mouse ps hrad hm
  refine ⟨qs, hqs, hlen, hall, ?_⟩
  intro hno
  simp only [simulationStep, hqs, Option.some_bind]
  exact collisionPass_unchanged sqrtf qs hno

/-- Witness of the amended C2: a particle past the left wall and a second one
far from it, the mouse 100 away from the first; the step returns the first
particle on the wall at `x = 3` and the second in place. -/
theorem simulationStep_contained_without_overlap_witness :
    ∃ qs, simulationStep Rat.sqrt (1 / 120) ⟨102, 50⟩
          [⟨⟨2, 50⟩, ⟨0, 0⟩, 3, ⟨100, 110, 120, 255⟩⟩,
           ⟨⟨402, 50⟩, ⟨0, 0⟩, 4, ⟨200, 210, 220, 255⟩⟩] = some qs
      ∧ qs.length = 2
      ∧ ∀ q ∈ qs, q.radius ≤ q.pos.x ∧ q.pos.x ≤ 800 - q.radius
            ∧ q.radius ≤ q.pos.y ∧ q.pos.y ≤ 600 - q.radius := by
  have h100 := ratSqrt_sq 100 (by norm_num)
  have h300 := ratSqrt_sq 300 (by norm_num)
  have h399 := ratSqrt_sq 399 (by norm_num)
  norm_num at h100 h300 h399
  obtain ⟨qs, hqs, hlen, hall, hstep⟩ :=
    simulationStep_contained_without_overlap Rat.sqrt (1 / 120) ⟨102, 50⟩
      [⟨⟨2, 50⟩, ⟨0, 0⟩, 3, ⟨100, 110, 120, 255⟩⟩,
       ⟨⟨402, 50⟩, ⟨0, 0⟩, 4, ⟨200, 210, 220, 255⟩⟩]
      (by
        intro p hp
        simp only [List.mem_cons, List.mem_singleton, List.not_mem_nil, or_false] at hp
        rcases hp with rfl | rfl <;> norm_num)
      (by
        intro p hp
        simp only [List.mem_cons, List.mem_singleton, List.not_mem_nil, or_false] at hp
        rcases hp with rfl | rfl
        · norm_num [mouseDist, h100]
        · norm_num [mouseDist, h300])
  have e1 : updateParticle Rat.sqrt (1 / 120) ⟨102, 50⟩
      ⟨⟨2, 50⟩, ⟨0, 0⟩, 3, ⟨100, 110, 120, 255⟩⟩
      = some ⟨⟨3, 50⟩, ⟨0, 0⟩, 3, ⟨100, 110, 120, 255⟩⟩ := by
    rw [updateParticle, repel_far _ _ _ _ (by norm_num [mouseDist, influenceRad, h100])]
    norm_num [bounce, bounceLeft, bounceRight, bounceTop, bounceBottom, integrate, drag,
      screenWidth, screenHeight]
  have e2 : updateParticle Rat.sqrt (1 / 120) ⟨102, 50⟩
      ⟨⟨402, 50⟩, ⟨0, 0⟩, 4, ⟨200, 210, 220, 255⟩⟩
      = some ⟨⟨402, 50⟩, ⟨0, 0⟩, 4, ⟨200, 210, 220, 255⟩⟩ := by
    rw [updateParticle, repel_far _ _ _ _ (by norm_num [mouseDist, influenceRad, h300])]
    norm_num [bounce, bounceLeft, bounceRight, bounceTop, bounceBottom, integrate, drag,
      screenWidth, screenHeight]
  have hq : qs = [⟨⟨3, 50⟩, ⟨0, 0⟩, 3, ⟨100, 110, 120, 255⟩⟩,
      ⟨⟨402, 50⟩, ⟨0, 0⟩, 4, ⟨200, 210, 220, 255⟩⟩] := by
    simp only [updateAll, e1, e2, Option.some_bind, Option.map_some', Option.some.injEq] at hqs
    exact hqs.symm
  refine ⟨qs, hstep ?_, hlen, fun q hq => (hall q hq).2.2⟩
  intro i j a b hij ha hb
  right
  subst hq
  match i, j, hij with
  | 0, 1, _ =>
    simp only [List.getElem?_cons_zero, List.getElem?_cons_succ, Option.some.injEq] at ha hb
    subst ha
    subst hb
    norm_num [centerDist, Vector2Length, Vector2Subtract, h399]
  | 0, j + 2, _ =>
    simp only [List.getElem?_cons_succ, List.getElem?_nil] at hb
    exact Option.noConfusion hb
  | i + 1, j + 2, _ =>
    simp only [List.getElem?_cons_succ, List.getElem?_nil] at hb
    exact Option.noConfusion hb
  | i + 1, 1, h =>
    omega
  | i, 0, h =>
    omega

end ParticleRepulsion
